import Mathlib

/-!
# Verification of the VK OAuth2 Cloud Code flow (`cloud/main.js`)

A shallow embedding of the authorization-state / identity-upsert core:

* `TokenRequest` records (the anti-forgery `state` store) are a list of ids.
* `TokenStorage` records (`ExternalIdentityLink` in the spec) are
  `TokenStorageRec` values: `vkId`, cached names, `accessToken`, a `userId`
  pointer to the owning `Parse.User`, and `createdAt` (a creation counter,
  standing in for the Parse `createdAt` timestamp: strictly increasing).
* `Parse.User` rows are `UserRec` values; the random base64 username/password
  and the minted session token are modelled as opaque strings derived from the
  fresh allocation counter (only freshness matters to the claims).
* JavaScript `undefined` on optional response fields is `Option`; JS
  truthiness of strings/numbers is `truthyStr` / `truthyInt`.

`upsertVKUser` / `newVKUser` (main.js lines 271-333) are embedded as a small
step machine `tStep` on a thread state, so that the same transition code
serves both the sequential callback (`upsertRun` iterates one thread to
completion) and the concurrency analysis (interleaving several threads).
-/

/-- JS truthiness of a possibly-undefined string: `undefined` and `""` are
falsy, any other string is truthy. -/
def truthyStr : Option String → Bool
  | none => false
  | some s => s ≠ ""

/-- JS truthiness of a possibly-undefined integer: `undefined` and `0` are
falsy. -/
def truthyInt : Option Int → Bool
  | none => false
  | some n => n ≠ 0

/-- One element of the VK `users.get` response array.  The VK profile payload
carries `uid` (validated at main.js line 163) and, possibly, `id` (the field
actually read by `upsertVKUser`/`newVKUser` at lines 273 and 322); either may
be absent (`none` = JS `undefined`). -/
structure VKProfile where
  uid : Option Int
  first_name : Option String
  last_name : Option String
  id : Option Int
  deriving Repr, DecidableEq

/-- A persisted `TokenStorage` row (main.js lines 320-329).  `createdAt` is
the allocation counter value at creation time and doubles as the row's
identity (Parse objectId): rows are created with strictly increasing
`createdAt`, so it is unique. -/
structure TokenStorageRec where
  vkId : Option Int
  vkFirstName : Option String
  vkLastName : Option String
  accessToken : String
  userId : Nat
  createdAt : Nat
  deriving Repr, DecidableEq

/-- A `Parse.User` row.  `username` stands for the random base64 credentials,
`sessionToken` for the session minted by `signUp`. -/
structure UserRec where
  id : Nat
  username : String
  sessionToken : String
  deriving Repr, DecidableEq

/-- The durable Parse store.  `tokenRequests` holds the ids of live
`TokenRequest` rows; `tokenStorage` the `TokenStorage` rows in creation
order; `users` the `Parse.User` rows; `nextId` the allocation counter for
fresh ids / `createdAt` values; `linkWrites` counts the persisted writes to
`TokenStorage` rows (creations and dirty saves — per the comment at main.js
line 288, a save of an unchanged row issues no API request and is not a
write). -/
structure Store where
  tokenRequests : List String
  tokenStorage : List TokenStorageRec
  users : List UserRec
  nextId : Nat
  linkWrites : Nat
  deriving Repr, DecidableEq

/-- The earlier-created of two rows (ties keep the left argument). -/
def olderOf (a b : TokenStorageRec) : TokenStorageRec :=
  if b.createdAt < a.createdAt then b else a

/-- `query.ascending('createdAt'); query.first()` over the rows satisfying
predicate `p`: the matching row with the least `createdAt` (ties keep the
earlier row; in reachable stores `createdAt` is unique). -/
def oldestBy (p : TokenStorageRec → Bool) (l : List TokenStorageRec) :
    Option TokenStorageRec :=
  match l.filter p with
  | [] => none
  | r :: rs => some (rs.foldl olderOf r)

/-- The opaque random username generated at main.js lines 310-316, modelled
by the fresh counter value. -/
def usernameFor (n : Nat) : String := "user-" ++ toString n

/-- The opaque session token minted by `user.signUp()`. -/
def sessionFor (n : Nat) : String := "session-" ++ toString n

/-- The effect of `tokenData.set('accessToken', tok); tokenData.save(...)`
on the row identified by `createdAt = c` (its objectId, unique in reachable
stores); all other rows are untouched. -/
def tokUpd (tok : String) (c : Nat) (x : TokenStorageRec) : TokenStorageRec :=
  if x.createdAt == c then { x with accessToken := tok } else x

/-- State of one in-flight `upsertVKUser` call, one constructor per
suspension point of the promise chain (main.js lines 271-333). -/
inductive TState where
  /-- About to run `query.first` (line 276). -/
  | query (tok : String) (vk : VKProfile)
  /-- Found row `r`; about to run `user.fetch` (line 283). -/
  | fetch (tok : String) (vk : VKProfile) (r : TokenStorageRec)
  /-- Fetched user `u`; about to set-if-changed and `tokenData.save`
  (lines 285-292). -/
  | save (tok : String) (vk : VKProfile) (r : TokenStorageRec) (u : UserRec)
  /-- Not-found branch: about to `user.signUp()` (line 319). -/
  | signup (tok : String) (vk : VKProfile)
  /-- Signed up user `uid`; about to build and save the TokenStorage row
  (lines 321-329), then re-run the upsert (line 331). -/
  | mklink (tok : String) (vk : VKProfile) (uid : Nat)
  /-- Returned the user (line 295). -/
  | done (u : UserRec)
  /-- `user.fetch` failed: the row's user pointer is dangling. -/
  | stuck
  deriving Repr, DecidableEq

/-- One atomic step of an `upsertVKUser` thread against the shared store.
Each case is one segment of the promise chain between suspension points. -/
def tStep (s : Store) : TState → TState × Store
  | .query tok vk =>
    -- query.equalTo('vkId', vkData.id); ascending('createdAt'); first()
    match oldestBy (fun r => r.vkId == vk.id) s.tokenStorage with
    | some r => (.fetch tok vk r, s)
    | none => (.signup tok vk, s)
  | .fetch tok vk r =>
    -- var user = tokenData.get('user'); user.fetch(...)
    match s.users.find? (fun u => u.id == r.userId) with
    | some u => (.save tok vk r u, s)
    | none => (.stuck, s)
  | .save tok vk r u =>
    -- if (accessToken !== tokenData.get('accessToken')) set(...); save(...)
    if tok ≠ r.accessToken then
      (.done u,
        { s with
          tokenStorage := s.tokenStorage.map (tokUpd tok r.createdAt),
          linkWrites := s.linkWrites + 1 })
    else (.done u, s)
  | .signup tok vk =>
    -- user.set(username/password random); user.signUp()
    (.mklink tok vk s.nextId,
      { s with
        users := s.users ++ [⟨s.nextId, usernameFor s.nextId, sessionFor s.nextId⟩],
        nextId := s.nextId + 1 })
  | .mklink tok vk uid =>
    -- ts.set('vkId', vkData.id); ...; ts.save(...); then upsertVKUser again
    (.query tok vk,
      { s with
        tokenStorage := s.tokenStorage ++
          [⟨vk.id, vk.first_name, vk.last_name, tok, uid, s.nextId⟩],
        nextId := s.nextId + 1,
        linkWrites := s.linkWrites + 1 })
  | .done u => (.done u, s)
  | .stuck => (.stuck, s)

/-- Run a single upsert thread to completion, with a step budget.  Returns
the user handed to the caller and the final store, or `none` if the thread
got stuck or the budget ran out. -/
def upsertRun : Nat → TState → Store → Option (UserRec × Store)
  | 0, _, _ => none
  | _ + 1, .done u, s => some (u, s)
  | _ + 1, .stuck, _ => none
  | n + 1, t, s =>
    let p := tStep s t
    upsertRun n p.1 p.2

/-- `upsertVKUser(accessToken, vkData)` (main.js line 271) run sequentially;
12 steps are more than the 7 any call can take (proved below). -/
def upsertVKUser (tok : String) (vk : VKProfile) (s : Store) :
    Option (UserRec × Store) :=
  upsertRun 12 (.query tok vk) s

/-- Well-formedness of reachable stores: `createdAt` of rows and ids of
users are below the allocation counter, rows are in strictly increasing
`createdAt` order, user ids are pairwise distinct, and every row's `user`
pointer resolves. -/
def SWF (s : Store) : Prop :=
  (∀ r ∈ s.tokenStorage, r.createdAt < s.nextId) ∧
  (∀ u ∈ s.users, u.id < s.nextId) ∧
  s.tokenStorage.Pairwise (fun a b => a.createdAt < b.createdAt) ∧
  s.users.Pairwise (fun a b => a.id ≠ b.id) ∧
  (∀ r ∈ s.tokenStorage, ∃ u ∈ s.users, u.id = r.userId)

instance (s : Store) : Decidable (SWF s) := by
  unfold SWF; infer_instance

example : upsertVKUser "t1" ⟨some 7, some "Ana", some "Li", none⟩
    ⟨[], [], [], 0, 0⟩ =
    some (⟨0, "user-0", "session-0"⟩,
      ⟨[], [⟨none, some "Ana", some "Li", "t1", 0, 1⟩],
        [⟨0, "user-0", "session-0"⟩], 2, 1⟩) := by decide

/-! ## Lemmas about `oldestBy` (the ascending-`createdAt` first-match query) -/

theorem foldl_olderOf_mem (rs : List TokenStorageRec) (r : TokenStorageRec) :
    rs.foldl olderOf r ∈ r :: rs := by
  induction rs generalizing r with
  | nil => simp
  | cons b bs ih =>
    rw [List.foldl_cons]
    rcases List.mem_cons.1 (ih (olderOf r b)) with h1 | h1
    · rw [h1]
      unfold olderOf
      split
      · exact List.mem_cons_of_mem _ (List.mem_cons_self _ _)
      · exact List.mem_cons_self _ _
    · exact List.mem_cons_of_mem _ (List.mem_cons_of_mem _ h1)

theorem oldestBy_eq_none {p : TokenStorageRec → Bool} {l : List TokenStorageRec} :
    oldestBy p l = none ↔ l.filter p = [] := by
  cases h : l.filter p with
  | nil => simp [oldestBy, h]
  | cons r rs => simp [oldestBy, h]

theorem oldestBy_mem {p : TokenStorageRec → Bool} {l : List TokenStorageRec}
    {r : TokenStorageRec} (h : oldestBy p l = some r) : r ∈ l ∧ p r = true := by
  have hf : r ∈ l.filter p := by
    cases hfe : l.filter p with
    | nil => simp [oldestBy, hfe] at h
    | cons x xs =>
      have hx : xs.foldl olderOf x = r := by simpa [oldestBy, hfe] using h
      rw [← hx]
      exact foldl_olderOf_mem xs x
  exact ⟨List.mem_of_mem_filter hf, List.of_mem_filter hf⟩

theorem oldestBy_append_not {p : TokenStorageRec → Bool} {l : List TokenStorageRec}
    {n : TokenStorageRec} (hp : p n = false) : oldestBy p (l ++ [n]) = oldestBy p l := by
  unfold oldestBy
  rw [List.filter_append]
  simp [List.filter_cons, hp]

theorem oldestBy_append_newer {p : TokenStorageRec → Bool} {l : List TokenStorageRec}
    {n r : TokenStorageRec} (h : oldestBy p l = some r) (hp : p n = true)
    (hlt : r.createdAt < n.createdAt) : oldestBy p (l ++ [n]) = some r := by
  cases hfe : l.filter p with
  | nil => simp [oldestBy, hfe] at h
  | cons x xs =>
    have hx : xs.foldl olderOf x = r := by simpa [oldestBy, hfe] using h
    unfold oldestBy
    rw [List.filter_append, hfe]
    simp only [List.filter_cons, hp, List.filter_nil, List.cons_append,
      List.foldl_append, hx]
    have : olderOf r n = r := by
      unfold olderOf
      simp [Nat.not_lt_of_gt hlt]
    simp [List.foldl_cons, this]

theorem oldestBy_append_first {p : TokenStorageRec → Bool} {l : List TokenStorageRec}
    {n : TokenStorageRec} (h : l.filter p = []) (hp : p n = true) :
    oldestBy p (l ++ [n]) = some n := by
  unfold oldestBy
  rw [List.filter_append, h]
  simp [List.filter_cons, hp]

theorem foldl_olderOf_map {f : TokenStorageRec → TokenStorageRec}
    (hc : ∀ x, (f x).createdAt = x.createdAt) (rs : List TokenStorageRec)
    (r : TokenStorageRec) : (rs.map f).foldl olderOf (f r) = f (rs.foldl olderOf r) := by
  induction rs generalizing r with
  | nil => simp
  | cons b bs ih =>
    rw [List.map_cons, List.foldl_cons, List.foldl_cons]
    have hob : olderOf (f r) (f b) = f (olderOf r b) := by
      unfold olderOf
      rw [hc, hc]
      split <;> rfl
    rw [hob]
    exact ih _

theorem oldestBy_map {p : TokenStorageRec → Bool} {f : TokenStorageRec → TokenStorageRec}
    (hp : ∀ x, p (f x) = p x) (hc : ∀ x, (f x).createdAt = x.createdAt)
    (l : List TokenStorageRec) : oldestBy p (l.map f) = (oldestBy p l).map f := by
  have hfil : (l.map f).filter p = (l.filter p).map f := by
    rw [List.filter_map]
    congr 1
    exact List.filter_congr fun x _ => hp x
  cases hl : l.filter p with
  | nil =>
    rw [oldestBy, hfil, hl]
    simp [oldestBy, hl]
  | cons x xs =>
    rw [oldestBy, hfil, hl]
    simp only [List.map_cons]
    simp [oldestBy, hl, foldl_olderOf_map hc]

/-! ## Lemmas about user lookup (`user.fetch` via the stored pointer) -/

theorem find?_user_eq {users : List UserRec} {u : UserRec} {i : Nat}
    (hnd : users.Pairwise (fun a b => a.id ≠ b.id)) (hmem : u ∈ users) (hid : u.id = i) :
    users.find? (fun x => x.id == i) = some u := by
  induction users with
  | nil => cases hmem
  | cons a rest ih =>
    rcases List.pairwise_cons.1 hnd with ⟨hne, hrest⟩
    by_cases ha : a.id = i
    · have hua : u = a := by
        rcases List.mem_cons.1 hmem with h | h
        · exact h
        · exact absurd (ha.trans hid.symm).symm (hne u h).symm
      rw [hua]
      simp [List.find?_cons, ha]
    · have hu : u ∈ rest := by
        rcases List.mem_cons.1 hmem with h | h
        · exact absurd (h ▸ hid) ha
        · exact h
      have := ih hrest hu
      simpa [List.find?_cons, ha] using this

theorem find?_user_isSome {users : List UserRec} {i : Nat}
    (h : ∃ u ∈ users, u.id = i) : (users.find? (fun x => x.id == i)).isSome = true := by
  rcases h with ⟨u, hu, hid⟩
  cases hf : users.find? (fun x => x.id == i) with
  | some v => rfl
  | none =>
    have := List.find?_eq_none.1 hf u hu
    simp [hid] at this

/-! ## Step equations for a single upsert thread -/

/-- The key predicate of the TokenStorage query at main.js line 273:
`query.equalTo('vkId', vkData.id)`; JS `undefined` compares equal to
`undefined`, hence `Option` equality. -/
def vkKey (k : Option Int) : TokenStorageRec → Bool := fun r => r.vkId == k

/-- The oldest link currently stored for the external id `k`. -/
def canon (k : Option Int) (s : Store) : Option TokenStorageRec :=
  oldestBy (vkKey k) s.tokenStorage

/-- The store after the found-branch save (main.js lines 285-292): unchanged
when the supplied token equals the stored one (the save is not dirty and
issues no API request), else the row's token is replaced and one write is
counted. -/
def saveStore (tok : String) (r : TokenStorageRec) (s : Store) : Store :=
  if tok = r.accessToken then s
  else
    { s with
      tokenStorage := s.tokenStorage.map (tokUpd tok r.createdAt),
      linkWrites := s.linkWrites + 1 }

/-- The store after the not-found branch of `newVKUser` (main.js lines
307-330): a fresh user and a fresh TokenStorage row bound to it. -/
def createdStore (tok : String) (vk : VKProfile) (s : Store) : Store :=
  { s with
    users := s.users ++ [⟨s.nextId, usernameFor s.nextId, sessionFor s.nextId⟩],
    tokenStorage := s.tokenStorage ++
      [⟨vk.id, vk.first_name, vk.last_name, tok, s.nextId, s.nextId + 1⟩],
    nextId := s.nextId + 2,
    linkWrites := s.linkWrites + 1 }

theorem tStep_save (s : Store) (tok : String) (vk : VKProfile)
    (r : TokenStorageRec) (u : UserRec) :
    tStep s (.save tok vk r u) = (.done u, saveStore tok r s) := by
  unfold tStep saveStore
  by_cases h : tok = r.accessToken <;> simp [h]

theorem upsertRun_done (n : Nat) (u : UserRec) (s : Store) :
    upsertRun (n + 1) (.done u) s = some (u, s) := rfl

theorem upsertRun_query (n : Nat) (tok : String) (vk : VKProfile) (s : Store) :
    upsertRun (n + 1) (.query tok vk) s =
      upsertRun n (tStep s (.query tok vk)).1 (tStep s (.query tok vk)).2 := rfl

theorem upsertRun_fetch (n : Nat) (tok : String) (vk : VKProfile)
    (r : TokenStorageRec) (s : Store) :
    upsertRun (n + 1) (.fetch tok vk r) s =
      upsertRun n (tStep s (.fetch tok vk r)).1 (tStep s (.fetch tok vk r)).2 := rfl

theorem upsertRun_save (n : Nat) (tok : String) (vk : VKProfile)
    (r : TokenStorageRec) (u : UserRec) (s : Store) :
    upsertRun (n + 1) (.save tok vk r u) s =
      upsertRun n (.done u) (saveStore tok r s) := by
  rw [show upsertRun (n + 1) (.save tok vk r u) s =
      upsertRun n (tStep s (.save tok vk r u)).1 (tStep s (.save tok vk r u)).2 from rfl,
    tStep_save]

theorem upsertRun_found (n : Nat) (tok : String) (vk : VKProfile) (s : Store)
    {r : TokenStorageRec} {u : UserRec}
    (hr : canon vk.id s = some r)
    (hu : s.users.find? (fun x => x.id == r.userId) = some u) :
    upsertRun (n + 4) (.query tok vk) s = some (u, saveStore tok r s) := by
  have hr' : oldestBy (fun x => x.vkId == vk.id) s.tokenStorage = some r := hr
  have e1 : tStep s (.query tok vk) = (.fetch tok vk r, s) := by
    simp [tStep, hr']
  have e2 : tStep s (.fetch tok vk r) = (.save tok vk r u, s) := by
    simp [tStep, hu]
  show upsertRun (n + 3 + 1) (.query tok vk) s = some (u, saveStore tok r s)
  rw [upsertRun_query, e1]
  show upsertRun (n + 2 + 1) (.fetch tok vk r) s = some (u, saveStore tok r s)
  rw [upsertRun_fetch, e2]
  show upsertRun (n + 1 + 1) (.save tok vk r u) s = some (u, saveStore tok r s)
  rw [upsertRun_save, upsertRun_done]

theorem upsertRun_notfound (n : Nat) (tok : String) (vk : VKProfile) (s : Store)
    (h : canon vk.id s = none) :
    upsertRun (n + 3) (.query tok vk) s =
      upsertRun n (.query tok vk) (createdStore tok vk s) := by
  have e1 : tStep s (.query tok vk) = (.signup tok vk, s) := by
    have : oldestBy (fun r => r.vkId == vk.id) s.tokenStorage = none := h
    simp [tStep, this]
  show upsertRun (n + 2 + 1) (.query tok vk) s = _
  rw [upsertRun_query, e1]
  rfl

/-! ## Store well-formedness is preserved by the upsert steps -/

theorem tokUpd_createdAt (tok : String) (c : Nat) (x : TokenStorageRec) :
    (tokUpd tok c x).createdAt = x.createdAt := by
  unfold tokUpd
  split <;> rfl

theorem tokUpd_userId (tok : String) (c : Nat) (x : TokenStorageRec) :
    (tokUpd tok c x).userId = x.userId := by
  unfold tokUpd
  split <;> rfl

theorem tokUpd_vkId (tok : String) (c : Nat) (x : TokenStorageRec) :
    (tokUpd tok c x).vkId = x.vkId := by
  unfold tokUpd
  split <;> rfl

theorem vkKey_tokUpd (k : Option Int) (tok : String) (c : Nat)
    (x : TokenStorageRec) : vkKey k (tokUpd tok c x) = vkKey k x := by
  unfold vkKey
  rw [tokUpd_vkId]

theorem SWF_saveStore {s : Store} (hwf : SWF s) (tok : String)
    (r : TokenStorageRec) : SWF (saveStore tok r s) := by
  obtain ⟨h1, h2, h3, h4, h5⟩ := hwf
  unfold saveStore
  by_cases h : tok = r.accessToken
  · simpa [h] using ⟨h1, h2, h3, h4, h5⟩
  · simp only [h, if_false]
    refine ⟨?_, h2, ?_, h4, ?_⟩
    · intro x hx
      rcases List.mem_map.1 hx with ⟨y, hy, rfl⟩
      rw [tokUpd_createdAt]
      exact h1 y hy
    · rw [List.pairwise_map]
      exact h3.imp fun hab => by
        rw [tokUpd_createdAt, tokUpd_createdAt]; exact hab
    · intro x hx
      rcases List.mem_map.1 hx with ⟨y, hy, rfl⟩
      rw [tokUpd_userId]
      exact h5 y hy

theorem SWF_createdStore {s : Store} (hwf : SWF s) (tok : String)
    (vk : VKProfile) : SWF (createdStore tok vk s) := by
  obtain ⟨h1, h2, h3, h4, h5⟩ := hwf
  refine ⟨?_, ?_, ?_, ?_, ?_⟩
  · intro r hr
    rcases List.mem_append.1 hr with h | h
    · have := h1 r h
      simp only [createdStore]
      omega
    · simp only [List.mem_singleton] at h
      subst h
      simp only [createdStore]
      omega
  · intro u hu
    rcases List.mem_append.1 hu with h | h
    · have := h2 u h
      simp only [createdStore]
      omega
    · simp only [List.mem_singleton] at h
      subst h
      simp only [createdStore]
      omega
  · refine List.pairwise_append.2 ⟨h3, List.pairwise_singleton _ _, ?_⟩
    intro a ha b hb
    simp only [List.mem_singleton] at hb
    subst hb
    have := h1 a ha
    simp only
    omega
  · refine List.pairwise_append.2 ⟨h4, List.pairwise_singleton _ _, ?_⟩
    intro a ha b hb
    simp only [List.mem_singleton] at hb
    subst hb
    have := h2 a ha
    simp only
    omega
  · intro r hr
    rcases List.mem_append.1 hr with h | h
    · rcases h5 r h with ⟨u, hu, hid⟩
      exact ⟨u, List.mem_append_left _ hu, hid⟩
    · simp only [List.mem_singleton] at h
      subst h
      exact ⟨⟨s.nextId, usernameFor s.nextId, sessionFor s.nextId⟩,
        List.mem_append_right _ (List.mem_singleton_self _), rfl⟩

/-- After the not-found branch creates its row, that row is the only (hence
the oldest) link for the key. -/
theorem canon_createdStore {s : Store} (tok : String) (vk : VKProfile)
    (h : canon vk.id s = none) :
    canon vk.id (createdStore tok vk s) =
      some ⟨vk.id, vk.first_name, vk.last_name, tok, s.nextId, s.nextId + 1⟩ := by
  unfold canon createdStore at *
  exact oldestBy_append_first (oldestBy_eq_none.1 h) (by simp [vkKey])

/-! ## Evaluation of a whole sequential `upsertVKUser` call -/

theorem saveStore_users (tok : String) (r : TokenStorageRec) (s : Store) :
    (saveStore tok r s).users = s.users := by
  unfold saveStore
  split <;> rfl

theorem saveStore_tokenRequests (tok : String) (r : TokenStorageRec) (s : Store) :
    (saveStore tok r s).tokenRequests = s.tokenRequests := by
  unfold saveStore
  split <;> rfl

theorem canon_saveStore {s : Store} {k : Option Int} {r : TokenStorageRec}
    (h : canon k s = some r) (tok : String) :
    canon k (saveStore tok r s) = some { r with accessToken := tok } := by
  unfold saveStore
  by_cases heq : tok = r.accessToken
  · rw [if_pos heq, h]
    cases r
    simp_all
  · rw [if_neg heq]
    unfold canon at h
    show oldestBy (vkKey k) (s.tokenStorage.map (tokUpd tok r.createdAt)) =
      some { r with accessToken := tok }
    rw [oldestBy_map (vkKey_tokUpd k tok r.createdAt)
      (tokUpd_createdAt tok r.createdAt) s.tokenStorage, h]
    simp [tokUpd]

theorem upsert_found (tok : String) {vk : VKProfile} {s : Store}
    {r : TokenStorageRec} {u : UserRec} (hr : canon vk.id s = some r)
    (hu : s.users.find? (fun x => x.id == r.userId) = some u) :
    upsertVKUser tok vk s = some (u, saveStore tok r s) :=
  upsertRun_found 8 tok vk s hr hu

theorem upsert_notfound_eval {tok : String} {vk : VKProfile} {s : Store}
    (hwf : SWF s) (h : canon vk.id s = none) :
    upsertVKUser tok vk s =
      some (⟨s.nextId, usernameFor s.nextId, sessionFor s.nextId⟩,
        createdStore tok vk s) := by
  have hstep : upsertVKUser tok vk s =
      upsertRun 9 (.query tok vk) (createdStore tok vk s) :=
    upsertRun_notfound 9 tok vk s h
  have hc := canon_createdStore tok vk h
  have hfind : (createdStore tok vk s).users.find?
      (fun x => x.id == (⟨vk.id, vk.first_name, vk.last_name, tok, s.nextId,
        s.nextId + 1⟩ : TokenStorageRec).userId) =
      some ⟨s.nextId, usernameFor s.nextId, sessionFor s.nextId⟩ := by
    have hwf' := SWF_createdStore hwf tok vk
    exact find?_user_eq hwf'.2.2.2.1
      (List.mem_append_right _ (List.mem_singleton_self _)) rfl
  have heval := upsertRun_found 5 tok vk (createdStore tok vk s) hc hfind
  rw [hstep, heval]
  have : saveStore tok ⟨vk.id, vk.first_name, vk.last_name, tok, s.nextId,
      s.nextId + 1⟩ (createdStore tok vk s) = createdStore tok vk s := by
    unfold saveStore
    rw [if_pos rfl]
  rw [this]

/-- Every `upsertVKUser` call on a well-formed store returns a user, and the
resulting store is well-formed, keeps all previous users, keeps the
`TokenRequest` table, and holds an oldest link for `vkData.id` storing the
supplied token and pointing at the returned user. -/
theorem upsert_post {tok : String} {vk : VKProfile} {s : Store} {u : UserRec}
    {s' : Store} (hwf : SWF s) (h : upsertVKUser tok vk s = some (u, s')) :
    SWF s' ∧ u ∈ s'.users ∧ (∀ x ∈ s.users, x ∈ s'.users) ∧
    s'.tokenRequests = s.tokenRequests ∧
    ∃ r, canon vk.id s' = some r ∧ r.accessToken = tok ∧ r.userId = u.id := by
  cases hc : canon vk.id s with
  | some r =>
    obtain ⟨hmem, hkey⟩ :=
      oldestBy_mem (show oldestBy (vkKey vk.id) s.tokenStorage = some r from hc)
    obtain ⟨u₁, hu₁, hid⟩ := hwf.2.2.2.2 r hmem
    have hfind := find?_user_eq hwf.2.2.2.1 hu₁ hid
    have heval := upsert_found tok hc hfind
    rw [heval] at h
    obtain ⟨rfl, rfl⟩ := Prod.mk.injEq .. ▸ Option.some.injEq .. ▸ h
    refine ⟨SWF_saveStore hwf tok r, ?_, ?_, saveStore_tokenRequests tok r s, ?_⟩
    · rw [saveStore_users]
      exact hu₁
    · intro x hx
      rw [saveStore_users]
      exact hx
    · exact ⟨{ r with accessToken := tok }, canon_saveStore hc tok, rfl, hid.symm⟩
  | none =>
    rw [upsert_notfound_eval hwf hc] at h
    obtain ⟨rfl, rfl⟩ := Prod.mk.injEq .. ▸ Option.some.injEq .. ▸ h
    refine ⟨SWF_createdStore hwf tok vk, ?_, ?_, rfl, ?_⟩
    · exact List.mem_append_right _ (List.mem_singleton_self _)
    · intro x hx
      exact List.mem_append_left _ hx
    · exact ⟨_, canon_createdStore tok vk hc, rfl, rfl⟩

/-- Every `upsertVKUser` call on a well-formed store returns some user. -/
theorem upsert_total (tok : String) (vk : VKProfile) (s : Store) (hwf : SWF s) :
    ∃ u s', upsertVKUser tok vk s = some (u, s') := by
  cases hc : canon vk.id s with
  | none =>
    exact ⟨_, _, upsert_notfound_eval hwf hc⟩
  | some r =>
    obtain ⟨hmem, _⟩ :=
      oldestBy_mem (show oldestBy (vkKey vk.id) s.tokenStorage = some r from hc)
    obtain ⟨u₁, hu₁, hid⟩ := hwf.2.2.2.2 r hmem
    exact ⟨u₁, _, upsert_found tok hc (find?_user_eq hwf.2.2.2.1 hu₁ hid)⟩

/-! ## Claims about the Identity Upsert Engine (sequential calls) -/

/-- C4: Upsert is idempotent on accessToken identity.  After a first
`upsertVKUser(tok, vkData)` call, a second call with the same unchanged
`tok` returns the same user and leaves the store identical — in particular
it performs zero additional writes to the link (`linkWrites`, the counter
of persisted TokenStorage writes, is unchanged), because the found-branch
only dirties the row when the token differs (main.js lines 285-292). -/
theorem claim_C4_upsert_idempotent_on_token (tok : String) (vk : VKProfile)
    (s : Store) (hwf : SWF s) :
    ∃ u s₁, upsertVKUser tok vk s = some (u, s₁) ∧
      upsertVKUser tok vk s₁ = some (u, s₁) ∧
      ∀ u₂ s₂, upsertVKUser tok vk s₁ = some (u₂, s₂) →
        s₂.linkWrites = s₁.linkWrites := by
  obtain ⟨u, s₁, h1⟩ := upsert_total tok vk s hwf
  obtain ⟨hwf₁, hu, -, -, r, hc, htok, hid⟩ := upsert_post hwf h1
  have hfind : s₁.users.find? (fun x => x.id == r.userId) = some u :=
    find?_user_eq hwf₁.2.2.2.1 hu hid.symm
  have h2 := upsert_found tok hc hfind
  have hsave : saveStore tok r s₁ = s₁ := by
    unfold saveStore
    rw [if_pos htok.symm]
  refine ⟨u, s₁, h1, ?_, ?_⟩
  · rw [h2, hsave]
  · intro u₂ s₂ hh
    rw [h2, hsave] at hh
    have hs := (Prod.ext_iff.1 (Option.some.inj hh)).2
    exact congrArg Store.linkWrites hs.symm

/-- Witness for C4 at a concrete input: the empty store is well-formed and
the double-call property holds there. -/
theorem claim_C4_witness :
    SWF ⟨[], [], [], 0, 0⟩ ∧
    ∃ u s₁,
      upsertVKUser "t1" ⟨some 7, some "Ana", some "Li", some 7⟩
        ⟨[], [], [], 0, 0⟩ = some (u, s₁) ∧
      upsertVKUser "t1" ⟨some 7, some "Ana", some "Li", some 7⟩ s₁ =
        some (u, s₁) ∧
      ∀ u₂ s₂, upsertVKUser "t1" ⟨some 7, some "Ana", some "Li", some 7⟩ s₁ =
        some (u₂, s₂) → s₂.linkWrites = s₁.linkWrites :=
  ⟨by decide, claim_C4_upsert_idempotent_on_token "t1" _ _ (by decide)⟩

/-- C5: Round-trip with a changed token.  A first `upsertVKUser(tok₁, vkData)`
followed by `upsertVKUser(tok₂, vkData)` with a different token returns the
same user both times and leaves the stored accessToken of the oldest link
for that external id equal to `tok₂`. -/
theorem claim_C5_roundtrip_new_token (tok₁ tok₂ : String) (vk : VKProfile)
    (s : Store) (hwf : SWF s) (hne : tok₁ ≠ tok₂) :
    ∃ u s₁ s₂, upsertVKUser tok₁ vk s = some (u, s₁) ∧
      upsertVKUser tok₂ vk s₁ = some (u, s₂) ∧
      ∃ r, canon vk.id s₂ = some r ∧ r.accessToken = tok₂ := by
  obtain ⟨u, s₁, h1⟩ := upsert_total tok₁ vk s hwf
  obtain ⟨hwf₁, hu, -, -, r, hc, htok, hid⟩ := upsert_post hwf h1
  have hfind : s₁.users.find? (fun x => x.id == r.userId) = some u :=
    find?_user_eq hwf₁.2.2.2.1 hu hid.symm
  have h2 := upsert_found tok₂ hc hfind
  exact ⟨u, s₁, saveStore tok₂ r s₁, h1, h2,
    { r with accessToken := tok₂ }, canon_saveStore hc tok₂, rfl⟩

/-- Witness for C5 at a concrete input. -/
theorem claim_C5_witness :
    (SWF ⟨[], [], [], 0, 0⟩ ∧ "t1" ≠ "t2") ∧
    ∃ u s₁ s₂,
      upsertVKUser "t1" ⟨some 7, some "Ana", some "Li", some 7⟩
        ⟨[], [], [], 0, 0⟩ = some (u, s₁) ∧
      upsertVKUser "t2" ⟨some 7, some "Ana", some "Li", some 7⟩ s₁ =
        some (u, s₂) ∧
      ∃ r, canon (some 7) s₂ = some r ∧ r.accessToken = "t2" :=
  ⟨⟨by decide, by decide⟩,
    claim_C5_roundtrip_new_token "t1" "t2" _ _ (by decide) (by decide)⟩

/-- C7: `upsertVKUser` terminates and returns a user for every input on a
well-formed store: the 12-step budget is never exhausted because after the
not-found branch creates its Account and TokenStorage row, the re-run's
query finds a row for the same external id and takes the found branch. -/
theorem claim_C7_upsert_terminates (tok : String) (vk : VKProfile) (s : Store)
    (hwf : SWF s) :
    ∃ u s', upsertVKUser tok vk s = some (u, s') ∧ u ∈ s'.users := by
  obtain ⟨u, s', h⟩ := upsert_total tok vk s hwf
  exact ⟨u, s', h, (upsert_post hwf h).2.1⟩

/-- Witness for C7 at a concrete input (a first-time login: the not-found
branch runs, then the re-run converges). -/
theorem claim_C7_witness :
    SWF ⟨[], [], [], 0, 0⟩ ∧
    ∃ u s', upsertVKUser "t1" ⟨some 7, some "Ana", some "Li", none⟩
      ⟨[], [], [], 0, 0⟩ = some (u, s') ∧ u ∈ s'.users :=
  ⟨by decide, claim_C7_upsert_terminates "t1" _ _ (by decide)⟩

/-! ## The OAuth callback route (`app.get('/oauthCallback')`, main.js 120-185)

The handler's promise chain is embedded as a small step machine `cbStep`
over a program counter and the store, parametrized by the provider (the two
VK HTTP endpoints as pure response functions) and the request query.  Each
step emits the store/network events it performs, so the ordering claims can
be read off the trace. -/

/-- The JSON body of the VK `access_token` endpoint response; missing fields
are `none` (JS `undefined`). -/
structure TokenResp where
  access_token : Option String
  user_id : Option Int
  deriving Repr, DecidableEq

/-- The JSON body of the VK `users.get` endpoint response: a `response`
array of profiles, or no `response` field at all (`none`). -/
structure ProfileResp where
  response : Option (List VKProfile)
  deriving Repr, DecidableEq

/-- The external provider, as pure response functions: `token c` is the body
returned by the `access_token` endpoint for code `c` (main.js 233-249), and
`profile t` the body returned by `users.get` for access token `t`
(main.js 255-264). -/
structure Provider where
  token : String → TokenResp
  profile : String → ProfileResp

/-- The callback request's query parameters (`req.query`); absent parameters
are `none`. -/
structure CbQuery where
  code : Option String
  state : Option String
  deriving Repr, DecidableEq

/-- An error value flowing to the handler's error continuation. -/
inductive JsErr where
  /-- A `Parse.Promise.error(msg)` rejection with a string message. -/
  | msg (s : String)
  /-- The Parse "object not found" rejection of `query.get` on a missing
  objectId (rendered via the `error.code + ' ' + error.error` branch at
  main.js lines 179-181). -/
  | objectNotFound
  /-- A thrown JS `TypeError` from reading a property of `undefined`
  (e.g. `userDataResponse.data.response[0]` when `response` is absent),
  which rejects the surrounding promise. -/
  | typeError
  deriving Repr, DecidableEq

/-- What the callback route finally renders. -/
inductive CbResult where
  /-- `res.render('store_auth', { sessionToken: ... })` (main.js 173). -/
  | session (tok : String)
  /-- `res.render('error', ...)` with the given error value. -/
  | errorPage (e : JsErr)
  deriving Repr, DecidableEq

/-- Store and network events of a callback run, in order. -/
inductive Ev where
  /-- The `TokenRequest` lookup `query.get(data.state)` (main.js 138). -/
  | storeRead
  /-- `obj.destroy()` of the TokenRequest (main.js 141). -/
  | storeDestroy
  /-- The HTTP POST to the token endpoint (main.js 144). -/
  | netToken
  /-- The HTTP GET to the profile endpoint (main.js 153). -/
  | netProfile
  /-- The store reads/writes of `upsertVKUser` (main.js 164). -/
  | storeUpsert
  deriving Repr, DecidableEq

/-- Program counter of the callback handler, one constructor per suspension
point of the promise chain in main.js lines 120-185. -/
inductive CbPC where
  /-- Input validation of `code` and `state` (lines 127-130). -/
  | start
  /-- About to run `query.get(data.state)` (line 138). -/
  | lookup
  /-- Found the TokenRequest; about to `obj.destroy()` (line 141). -/
  | destroy
  /-- About to exchange the code at the token endpoint (line 144). -/
  | exchange
  /-- Got access token `tok`; about to fetch the profile (line 153). -/
  | profile (tok : String)
  /-- Validated profile `vk`; about to run `upsertVKUser` (line 164). -/
  | upsert (tok : String) (vk : VKProfile)
  /-- Rendered a page; terminal. -/
  | halt (r : CbResult)
  deriving Repr, DecidableEq

/-- A configuration of the callback machine. -/
structure CbConfig where
  pc : CbPC
  store : Store
  deriving Repr, DecidableEq

/-- One step of the callback handler, returning the new configuration and
the events this step performed. -/
def cbStep (P : Provider) (q : CbQuery) : CbConfig → CbConfig × List Ev
  | ⟨.start, s⟩ =>
    -- if (!(data && data.code && data.state)) render error (lines 127-130)
    if truthyStr q.code && truthyStr q.state then (⟨.lookup, s⟩, [])
    else (⟨.halt (.errorPage (.msg "Invalid auth response received.")), s⟩, [])
  | ⟨.lookup, s⟩ =>
    -- query.get(data.state): rejects with object-not-found when absent
    if (q.state.getD "") ∈ s.tokenRequests then (⟨.destroy, s⟩, [.storeRead])
    else (⟨.halt (.errorPage .objectNotFound), s⟩, [.storeRead])
  | ⟨.destroy, s⟩ =>
    -- obj.destroy(): the single-use consumption of the state record
    (⟨.exchange, { s with tokenRequests := s.tokenRequests.erase (q.state.getD "") }⟩,
      [.storeDestroy])
  | ⟨.exchange, s⟩ =>
    -- getVKAccessToken(data.code), then validate access_token and user_id
    let vkData := P.token (q.code.getD "")
    if truthyStr vkData.access_token && truthyInt vkData.user_id then
      (⟨.profile (vkData.access_token.getD ""), s⟩, [.netToken])
    else (⟨.halt (.errorPage (.msg "Invalid access request.")), s⟩, [.netToken])
  | ⟨.profile tok, s⟩ =>
    -- getVKUserDetails(token), then userDataResponse.data.response[0]
    match (P.profile tok).response with
    | none =>
      -- reading [0] of undefined throws a TypeError before any validation
      (⟨.halt (.errorPage .typeError), s⟩, [.netProfile])
    | some l =>
      match l.head? with
      | none =>
        -- userData is undefined: the if-guard fails (line 163)
        (⟨.halt (.errorPage (.msg "Unable to parse VK data")), s⟩, [.netProfile])
      | some userData =>
        if truthyStr userData.first_name && truthyStr userData.last_name &&
            truthyInt userData.uid then
          (⟨.upsert tok userData, s⟩, [.netProfile])
        else
          (⟨.halt (.errorPage (.msg "Unable to parse VK data")), s⟩, [.netProfile])
  | ⟨.upsert tok vk, s⟩ =>
    match upsertVKUser tok vk s with
    | some (u, s') => (⟨.halt (.session u.sessionToken), s'⟩, [.storeUpsert])
    | none => (⟨.halt (.errorPage (.msg "upsert failed")), s⟩, [.storeUpsert])
  | ⟨.halt r, s⟩ => (⟨.halt r, s⟩, [])

/-- Iterate the callback machine `n` steps, accumulating the event trace. -/
def cbRun (P : Provider) (q : CbQuery) : Nat → CbConfig → CbConfig × List Ev
  | 0, c => (c, [])
  | n + 1, c =>
    let p := cbStep P q c
    let rest := cbRun P q n p.1
    (rest.1, p.2 ++ rest.2)

/-- The configuration after `n` steps of the callback on initial store `s`. -/
def cbExec (P : Provider) (q : CbQuery) (n : Nat) (s : Store) : CbConfig :=
  (cbRun P q n ⟨.start, s⟩).1

/-- The full event trace of a callback run (24 steps is past quiescence:
every run halts within 6 steps and `halt` self-loops without events). -/
def cbTrace (P : Provider) (q : CbQuery) (s : Store) : List Ev :=
  (cbRun P q 24 ⟨.start, s⟩).2

/-- The rendered result of a callback run, if it has halted. -/
def callbackResult (P : Provider) (q : CbQuery) (s : Store) : Option CbResult :=
  match cbExec P q 24 s with
  | ⟨.halt r, _⟩ => some r
  | _ => none

/-! ## Basic lemmas about the callback machine -/

theorem cbRun_halt (P : Provider) (q : CbQuery) (n : Nat) (r : CbResult)
    (s : Store) : cbRun P q n ⟨.halt r, s⟩ = (⟨.halt r, s⟩, []) := by
  induction n with
  | zero => rfl
  | succ n ih => simp [cbRun, cbStep, ih]

theorem cbRun_step_cons (P : Provider) (q : CbQuery) (n : Nat) {c c' : CbConfig}
    {es : List Ev} (h : cbStep P q c = (c', es)) :
    cbRun P q (n + 1) c = ((cbRun P q n c').1, es ++ (cbRun P q n c').2) := by
  simp [cbRun, h]

theorem cbRun_fst_succ (P : Provider) (q : CbQuery) (n : Nat) (c : CbConfig) :
    (cbRun P q (n + 1) c).1 = (cbRun P q n (cbStep P q c).1).1 := rfl

theorem tStep_tokenRequests (s : Store) (t : TState) :
    (tStep s t).2.tokenRequests = s.tokenRequests := by
  cases t <;> simp only [tStep] <;> (try split) <;> rfl

theorem upsertRun_tokenRequests : ∀ (n : Nat) (t : TState) (s : Store)
    {u : UserRec} {s' : Store}, upsertRun n t s = some (u, s') →
    s'.tokenRequests = s.tokenRequests := by
  intro n
  induction n with
  | zero =>
    intro t s u s' h
    exact absurd h (by simp [upsertRun])
  | succ n ih =>
    intro t s u s' h
    cases t with
    | done v =>
      rw [upsertRun_done] at h
      have hs := (Prod.ext_iff.1 (Option.some.inj h)).2
      exact congrArg Store.tokenRequests hs.symm
    | stuck => exact absurd h (by simp [upsertRun])
    | query tok vk => exact (ih _ _ h).trans (tStep_tokenRequests s _)
    | fetch tok vk r => exact (ih _ _ h).trans (tStep_tokenRequests s _)
    | save tok vk r u₁ => exact (ih _ _ h).trans (tStep_tokenRequests s _)
    | signup tok vk => exact (ih _ _ h).trans (tStep_tokenRequests s _)
    | mklink tok vk uid => exact (ih _ _ h).trans (tStep_tokenRequests s _)

/-- No step of the callback ever (re-)inserts a TokenRequest id: once a
state id is gone from the store it stays gone. -/
theorem cbStep_not_mem_tokenRequests (P : Provider) (q : CbQuery) {S : String}
    {c : CbConfig} (h : S ∉ c.store.tokenRequests) :
    S ∉ (cbStep P q c).1.store.tokenRequests := by
  obtain ⟨pc, s⟩ := c
  cases pc with
  | start =>
    simp only [cbStep]
    split <;> exact h
  | lookup =>
    simp only [cbStep]
    split <;> exact h
  | destroy =>
    simp only [cbStep]
    intro hmem
    exact h (List.mem_of_mem_erase hmem)
  | exchange =>
    simp only [cbStep]
    split <;> exact h
  | profile tok =>
    simp only [cbStep]
    split
    · exact h
    · split
      · exact h
      · split <;> exact h
  | upsert tok vk =>
    simp only [cbStep]
    split
    · next u s' heq =>
      intro hmem
      exact h ((upsertRun_tokenRequests 12 _ s heq) ▸ hmem)
    · exact h
  | halt r => exact h

theorem cbRun_not_mem_tokenRequests (P : Provider) (q : CbQuery) {S : String} :
    ∀ (n : Nat) (c : CbConfig), S ∉ c.store.tokenRequests →
    S ∉ ((cbRun P q n c).1).store.tokenRequests := by
  intro n
  induction n with
  | zero => intro c h; exact h
  | succ n ih =>
    intro c h
    rw [cbRun_fst_succ]
    exact ih _ (cbStep_not_mem_tokenRequests P q h)

/-! ## C3: missing `code` or `state` -/

/-- C3: a callback whose query is missing `code` or missing `state` (absent
or empty, both falsy in JS) renders the `Invalid auth response received.`
error, performs no store read or write and no network call (empty event
trace), and leaves the store untouched. -/
theorem claim_C3_invalid_request (P : Provider) (q : CbQuery) (s : Store)
    (h : truthyStr q.code = false ∨ truthyStr q.state = false) :
    callbackResult P q s =
      some (.errorPage (.msg "Invalid auth response received.")) ∧
    cbTrace P q s = [] ∧
    (cbExec P q 24 s).store = s := by
  have hcond : (truthyStr q.code && truthyStr q.state) = false := by
    rcases h with h | h <;> simp [h]
  have e0 : cbStep P q ⟨.start, s⟩ =
      (⟨.halt (.errorPage (.msg "Invalid auth response received.")), s⟩, []) := by
    simp [cbStep, hcond]
  have h24 := cbRun_step_cons P q 23 e0
  rw [cbRun_halt] at h24
  refine ⟨?_, ?_, ?_⟩
  · unfold callbackResult cbExec
    rw [h24]
  · unfold cbTrace
    rw [h24]
    rfl
  · unfold cbExec
    rw [h24]

/-- Witness for C3 at a concrete input: a query carrying only `state`. -/
theorem claim_C3_witness :
    (truthyStr (none : Option String) = false ∨
      truthyStr (some "S1") = false) ∧
    (callbackResult ⟨fun _ => ⟨none, none⟩, fun _ => ⟨none⟩⟩ ⟨none, some "S1"⟩
        ⟨["S1"], [], [], 0, 0⟩ =
      some (.errorPage (.msg "Invalid auth response received.")) ∧
    cbTrace ⟨fun _ => ⟨none, none⟩, fun _ => ⟨none⟩⟩ ⟨none, some "S1"⟩
        ⟨["S1"], [], [], 0, 0⟩ = [] ∧
    (cbExec ⟨fun _ => ⟨none, none⟩, fun _ => ⟨none⟩⟩ ⟨none, some "S1"⟩ 24
        ⟨["S1"], [], [], 0, 0⟩).store = ⟨["S1"], [], [], 0, 0⟩) :=
  ⟨Or.inl rfl, claim_C3_invalid_request _ _ _ (Or.inl rfl)⟩

/-! ## C2: single-use consumption of the state record -/

/-- A well-formed second callback carrying a state id that is no longer in
the TokenRequest table fails its lookup with the object-not-found error
(the spec's `InvalidOrExpiredState`). -/
theorem callbackResult_invalid_state (P' : Provider) (q' : CbQuery) (S : String)
    (s₂ : Store) (hc : truthyStr q'.code = true) (hS : q'.state = some S)
    (hs : S ≠ "") (hmem : S ∉ s₂.tokenRequests) :
    callbackResult P' q' s₂ = some (.errorPage .objectNotFound) := by
  have htrue : truthyStr q'.state = true := by
    rw [hS]
    simp [truthyStr, hs]
  have e0 : cbStep P' q' ⟨.start, s₂⟩ = (⟨.lookup, s₂⟩, []) := by
    simp [cbStep, hc, htrue]
  have hget : q'.state.getD "" = S := by rw [hS]; rfl
  have e1 : cbStep P' q' ⟨.lookup, s₂⟩ =
      (⟨.halt (.errorPage .objectNotFound), s₂⟩, [.storeRead]) := by
    simp [cbStep, hget, hmem]
  have t1 : cbRun P' q' 24 ⟨.start, s₂⟩ =
      ((cbRun P' q' 23 ⟨.lookup, s₂⟩).1, [] ++ (cbRun P' q' 23 ⟨.lookup, s₂⟩).2) :=
    cbRun_step_cons P' q' 23 e0
  have t2 : cbRun P' q' 23 ⟨.lookup, s₂⟩ =
      ((cbRun P' q' 22 ⟨.halt (.errorPage .objectNotFound), s₂⟩).1,
        [Ev.storeRead] ++
          (cbRun P' q' 22 ⟨.halt (.errorPage .objectNotFound), s₂⟩).2) :=
    cbRun_step_cons P' q' 22 e1
  unfold callbackResult cbExec
  rw [t1, t2, cbRun_halt]

/-- C2: the AuthRequest (TokenRequest) record is single-use.  For a callback
whose lookup succeeds: (1) the event trace begins with the store read
followed immediately by the destroy, before any network event; (2) from the
third step on — i.e. as soon as the destroy has executed, even while the
exchange, profile and upsert steps of the first callback are still pending —
the state id is gone from the store and stays gone; (3) a second
well-formed callback (any provider, any code) carrying the same state,
launched from the store as it is at any such intermediate point, fails with
the object-not-found error (`InvalidOrExpiredState`). -/
theorem claim_C2_state_single_use (P P' : Provider) (q q' : CbQuery)
    (S : String) (s : Store)
    (hcode : truthyStr q.code = true) (hstate : q.state = some S)
    (hSne : S ≠ "") (hmem : S ∈ s.tokenRequests) (hnd : s.tokenRequests.Nodup)
    (hstate' : q'.state = some S) (hcode' : truthyStr q'.code = true) :
    (∃ rest, cbTrace P q s = Ev.storeRead :: Ev.storeDestroy :: rest) ∧
    (∀ n : Nat, S ∉ (cbExec P q (n + 3) s).store.tokenRequests) ∧
    (∀ n : Nat, callbackResult P' q' (cbExec P q (n + 3) s).store =
      some (.errorPage .objectNotFound)) := by
  have htrue : truthyStr q.state = true := by
    rw [hstate]
    simp [truthyStr, hSne]
  have e0 : cbStep P q ⟨.start, s⟩ = (⟨.lookup, s⟩, []) := by
    simp [cbStep, hcode, htrue]
  have hget : q.state.getD "" = S := by rw [hstate]; rfl
  have e1 : cbStep P q ⟨.lookup, s⟩ = (⟨.destroy, s⟩, [.storeRead]) := by
    simp [cbStep, hget, hmem]
  have e2 : cbStep P q ⟨.destroy, s⟩ =
      (⟨.exchange, { s with tokenRequests := s.tokenRequests.erase S }⟩,
        [.storeDestroy]) := by
    simp [cbStep, hget]
  have hS2 : S ∉ ({ s with tokenRequests := s.tokenRequests.erase S } :
      Store).tokenRequests := by
    intro hc
    exact ((hnd.mem_erase_iff).1 hc).1 rfl
  have hgone : ∀ n : Nat, S ∉ (cbExec P q (n + 3) s).store.tokenRequests := by
    intro n
    show S ∉ ((cbRun P q (n + 2 + 1) ⟨.start, s⟩).1).store.tokenRequests
    rw [cbRun_fst_succ, e0]
    show S ∉ ((cbRun P q (n + 1 + 1) ⟨.lookup, s⟩).1).store.tokenRequests
    rw [cbRun_fst_succ, e1]
    show S ∉ ((cbRun P q (n + 1) ⟨.destroy, s⟩).1).store.tokenRequests
    rw [cbRun_fst_succ, e2]
    exact cbRun_not_mem_tokenRequests P q n _ hS2
  refine ⟨?_, hgone, ?_⟩
  · refine ⟨(cbRun P q 21
      ⟨.exchange, { s with tokenRequests := s.tokenRequests.erase S }⟩).2, ?_⟩
    have t1 : cbRun P q 24 ⟨.start, s⟩ =
        ((cbRun P q 23 ⟨.lookup, s⟩).1, [] ++ (cbRun P q 23 ⟨.lookup, s⟩).2) :=
      cbRun_step_cons P q 23 e0
    have t2 : cbRun P q 23 ⟨.lookup, s⟩ =
        ((cbRun P q 22 ⟨.destroy, s⟩).1,
          [Ev.storeRead] ++ (cbRun P q 22 ⟨.destroy, s⟩).2) :=
      cbRun_step_cons P q 22 e1
    have t3 : cbRun P q 22 ⟨.destroy, s⟩ =
        ((cbRun P q 21 ⟨.exchange,
            { s with tokenRequests := s.tokenRequests.erase S }⟩).1,
          [Ev.storeDestroy] ++ (cbRun P q 21 ⟨.exchange,
            { s with tokenRequests := s.tokenRequests.erase S }⟩).2) :=
      cbRun_step_cons P q 21 e2
    unfold cbTrace
    rw [t1, t2, t3]
    rfl
  · intro n
    exact callbackResult_invalid_state P' q' S _ hcode' hstate' hSne (hgone n)

/-- Witness for C2 at a concrete input. -/
theorem claim_C2_witness :
    (truthyStr (some "c1") = true ∧ "S1" ≠ "" ∧
      "S1" ∈ (⟨["S1"], [], [], 0, 0⟩ : Store).tokenRequests ∧
      (⟨["S1"], [], [], 0, 0⟩ : Store).tokenRequests.Nodup) ∧
    ((∃ rest, cbTrace ⟨fun _ => ⟨some "t1", some 7⟩,
        fun _ => ⟨some [⟨some 7, some "Ana", some "Li", none⟩]⟩⟩
        ⟨some "c1", some "S1"⟩ ⟨["S1"], [], [], 0, 0⟩ =
        Ev.storeRead :: Ev.storeDestroy :: rest) ∧
    (∀ n : Nat, "S1" ∉ (cbExec ⟨fun _ => ⟨some "t1", some 7⟩,
        fun _ => ⟨some [⟨some 7, some "Ana", some "Li", none⟩]⟩⟩
        ⟨some "c1", some "S1"⟩ (n + 3)
        ⟨["S1"], [], [], 0, 0⟩).store.tokenRequests) ∧
    (∀ n : Nat, callbackResult ⟨fun _ => ⟨some "t1", some 7⟩,
        fun _ => ⟨some [⟨some 7, some "Ana", some "Li", none⟩]⟩⟩
        ⟨some "c1", some "S1"⟩
        (cbExec ⟨fun _ => ⟨some "t1", some 7⟩,
          fun _ => ⟨some [⟨some 7, some "Ana", some "Li", none⟩]⟩⟩
          ⟨some "c1", some "S1"⟩ (n + 3)
          ⟨["S1"], [], [], 0, 0⟩).store =
      some (.errorPage .objectNotFound))) :=
  ⟨⟨rfl, by decide, by decide, by decide⟩,
    claim_C2_state_single_use _ _ _ _ "S1" _ rfl rfl (by decide) (by decide)
      (by decide) rfl rfl⟩

/-! ## C8: malformed token-endpoint response -/

/-- C8: when the token-endpoint response lacks a (truthy) access token or a
(truthy) external user id, the callback renders `Invalid access request.`
(the spec's `TokenExchangeFailed`) and the run's whole event trace is the
state read, the state destroy and the token-endpoint call — in particular
the profile endpoint is never called and the upsert never runs. -/
theorem claim_C8_token_exchange_failed (P : Provider) (q : CbQuery)
    (S : String) (s : Store)
    (hcode : truthyStr q.code = true) (hstate : q.state = some S)
    (hSne : S ≠ "") (hmem : S ∈ s.tokenRequests)
    (hbad : (truthyStr (P.token (q.code.getD "")).access_token &&
      truthyInt (P.token (q.code.getD "")).user_id) = false) :
    callbackResult P q s = some (.errorPage (.msg "Invalid access request.")) ∧
    cbTrace P q s = [.storeRead, .storeDestroy, .netToken] ∧
    Ev.netProfile ∉ cbTrace P q s ∧ Ev.storeUpsert ∉ cbTrace P q s := by
  have htrue : truthyStr q.state = true := by
    rw [hstate]
    simp [truthyStr, hSne]
  have e0 : cbStep P q ⟨.start, s⟩ = (⟨.lookup, s⟩, []) := by
    simp [cbStep, hcode, htrue]
  have hget : q.state.getD "" = S := by rw [hstate]; rfl
  have e1 : cbStep P q ⟨.lookup, s⟩ = (⟨.destroy, s⟩, [.storeRead]) := by
    simp [cbStep, hget, hmem]
  have e2 : cbStep P q ⟨.destroy, s⟩ =
      (⟨.exchange, { s with tokenRequests := s.tokenRequests.erase S }⟩,
        [.storeDestroy]) := by
    simp [cbStep, hget]
  have e3 : cbStep P q ⟨.exchange,
      { s with tokenRequests := s.tokenRequests.erase S }⟩ =
      (⟨.halt (.errorPage (.msg "Invalid access request.")),
        { s with tokenRequests := s.tokenRequests.erase S }⟩, [.netToken]) := by
    simp only [cbStep, hbad]
    rfl
  have t1 : cbRun P q 24 ⟨.start, s⟩ =
      ((cbRun P q 23 ⟨.lookup, s⟩).1, [] ++ (cbRun P q 23 ⟨.lookup, s⟩).2) :=
    cbRun_step_cons P q 23 e0
  have t2 : cbRun P q 23 ⟨.lookup, s⟩ =
      ((cbRun P q 22 ⟨.destroy, s⟩).1,
        [Ev.storeRead] ++ (cbRun P q 22 ⟨.destroy, s⟩).2) :=
    cbRun_step_cons P q 22 e1
  have t3 : cbRun P q 22 ⟨.destroy, s⟩ =
      ((cbRun P q 21 ⟨.exchange,
          { s with tokenRequests := s.tokenRequests.erase S }⟩).1,
        [Ev.storeDestroy] ++ (cbRun P q 21 ⟨.exchange,
          { s with tokenRequests := s.tokenRequests.erase S }⟩).2) :=
    cbRun_step_cons P q 21 e2
  have t4 : cbRun P q 21 ⟨.exchange,
      { s with tokenRequests := s.tokenRequests.erase S }⟩ =
      ((cbRun P q 20 ⟨.halt (.errorPage (.msg "Invalid access request.")),
          { s with tokenRequests := s.tokenRequests.erase S }⟩).1,
        [Ev.netToken] ++ (cbRun P q 20
          ⟨.halt (.errorPage (.msg "Invalid access request.")),
          { s with tokenRequests := s.tokenRequests.erase S }⟩).2) :=
    cbRun_step_cons P q 20 e3
  have htr : cbTrace P q s = [.storeRead, .storeDestroy, .netToken] := by
    unfold cbTrace
    rw [t1, t2, t3, t4, cbRun_halt]
    rfl
  refine ⟨?_, htr, ?_, ?_⟩
  · unfold callbackResult cbExec
    rw [t1, t2, t3, t4, cbRun_halt]
  · rw [htr]
    decide
  · rw [htr]
    decide

/-- Witness for C8 at a concrete input: the token endpoint answers without
a `user_id`. -/
theorem claim_C8_witness :
    (truthyStr (some "c1") = true ∧ "S1" ≠ "" ∧
      "S1" ∈ (⟨["S1"], [], [], 0, 0⟩ : Store).tokenRequests ∧
      (truthyStr ((⟨fun _ => ⟨some "t1", none⟩, fun _ => ⟨none⟩⟩ :
          Provider).token ((some "c1").getD "")).access_token &&
        truthyInt ((⟨fun _ => ⟨some "t1", none⟩, fun _ => ⟨none⟩⟩ :
          Provider).token ((some "c1").getD "")).user_id) = false) ∧
    (callbackResult ⟨fun _ => ⟨some "t1", none⟩, fun _ => ⟨none⟩⟩
        ⟨some "c1", some "S1"⟩ ⟨["S1"], [], [], 0, 0⟩ =
      some (.errorPage (.msg "Invalid access request.")) ∧
    cbTrace ⟨fun _ => ⟨some "t1", none⟩, fun _ => ⟨none⟩⟩
        ⟨some "c1", some "S1"⟩ ⟨["S1"], [], [], 0, 0⟩ =
      [.storeRead, .storeDestroy, .netToken] ∧
    Ev.netProfile ∉ cbTrace ⟨fun _ => ⟨some "t1", none⟩, fun _ => ⟨none⟩⟩
        ⟨some "c1", some "S1"⟩ ⟨["S1"], [], [], 0, 0⟩ ∧
    Ev.storeUpsert ∉ cbTrace ⟨fun _ => ⟨some "t1", none⟩, fun _ => ⟨none⟩⟩
        ⟨some "c1", some "S1"⟩ ⟨["S1"], [], [], 0, 0⟩) :=
  ⟨⟨rfl, by decide, by decide, by decide⟩,
    claim_C8_token_exchange_failed _ _ "S1" _ rfl rfl (by decide) (by decide)
      (by decide)⟩

/-! ## The `getVKData` cloud function (main.js 206-226) -/

/-- What the `getVKData` cloud function hands to its response object. -/
inductive VKDataResult where
  /-- `response.success(userData)`; `userData` is `response[0]` of the
  provider payload and may be JS `undefined` (`none`) when the array is
  empty — the code performs no shape check before succeeding. -/
  | success (p : Option VKProfile)
  /-- `response.error(...)` with the propagated error value. -/
  | error (e : JsErr)
  deriving Repr, DecidableEq

/-- `Parse.Cloud.define('getVKData', ...)` (main.js 206-226): requires a
logged-in caller, looks up the caller's TokenStorage row (`equalTo('user')`,
ascending `createdAt`, `first`), errors with `No VK data found.` when there
is none, else re-fetches the profile with the stored accessToken and
succeeds with element 0 of the `response` array; reading element 0 of an
absent array throws a TypeError that the error continuation propagates. -/
def getVKData (P : Provider) (user : Option UserRec) (s : Store) :
    VKDataResult :=
  match user with
  | none => .error (.msg "Must be logged in.")
  | some u =>
    match oldestBy (fun r => r.userId == u.id) s.tokenStorage with
    | none => .error (.msg "No VK data found.")
    | some tokenData =>
      match (P.profile tokenData.accessToken).response with
      | none => .error .typeError
      | some l => .success l.head?

/-! ## C9: the signed-in profile query -/

/-- C9: `getVKData` requires an authenticated caller (else
`Must be logged in.`); for a signed-in caller it looks up that caller's
TokenStorage row, oldest first on ties, and fails with `No VK data found.`
(the spec's `NotLinked`) when none exists; when a row exists it calls the
profile endpoint with the stored accessToken and returns the first fetched
profile. -/
theorem claim_C9_getVKData (P : Provider) (u : UserRec) (s : Store)
    (td : TokenStorageRec) (p : VKProfile) (rest : List VKProfile) :
    getVKData P none s = .error (.msg "Must be logged in.") ∧
    (oldestBy (fun r => r.userId == u.id) s.tokenStorage = none →
      getVKData P (some u) s = .error (.msg "No VK data found.")) ∧
    (oldestBy (fun r => r.userId == u.id) s.tokenStorage = some td →
      (P.profile td.accessToken).response = some (p :: rest) →
      getVKData P (some u) s = .success (some p)) := by
  refine ⟨rfl, ?_, ?_⟩
  · intro h
    simp [getVKData, h]
  · intro h hresp
    simp [getVKData, h, hresp]

/-- Witness for C9 at a concrete input: one linked row, provider returns a
one-element profile array. -/
theorem claim_C9_witness :
    (oldestBy (fun r => r.userId == (⟨0, "u", "sess"⟩ : UserRec).id)
        (⟨[], [⟨some 7, some "Ana", some "Li", "t1", 0, 1⟩],
          [⟨0, "u", "sess"⟩], 2, 1⟩ : Store).tokenStorage =
      some ⟨some 7, some "Ana", some "Li", "t1", 0, 1⟩) ∧
    getVKData ⟨fun _ => ⟨none, none⟩,
        fun _ => ⟨some [⟨some 7, some "Ana", some "Li", none⟩]⟩⟩
      (some ⟨0, "u", "sess"⟩)
      ⟨[], [⟨some 7, some "Ana", some "Li", "t1", 0, 1⟩],
        [⟨0, "u", "sess"⟩], 2, 1⟩ =
      .success (some ⟨some 7, some "Ana", some "Li", none⟩) :=
  ⟨by decide,
    (claim_C9_getVKData ⟨fun _ => ⟨none, none⟩,
        fun _ => ⟨some [⟨some 7, some "Ana", some "Li", none⟩]⟩⟩
      ⟨0, "u", "sess"⟩ _ ⟨some 7, some "Ana", some "Li", "t1", 0, 1⟩
      ⟨some 7, some "Ana", some "Li", none⟩ []).2.2 (by decide) (by decide)⟩

/-! ## C10: unguarded indexing into the profile response -/

/-- C10: in both the callback's profile-processing step and `getVKData`,
element 0 of the profile payload's `response` array is read before any
shape validation: when the payload has no `response` array the access
throws a TypeError — the rendered error is the TypeError, not the step's
designated `Unable to parse VK data` (callback) and not `NotLinked`-style
handling (`getVKData` does no shape check at all). -/
theorem claim_C10_unguarded_indexing (P : Provider) (q : CbQuery)
    (S T : String) (s : Store)
    (hcode : truthyStr q.code = true) (hstate : q.state = some S)
    (hSne : S ≠ "") (hmem : S ∈ s.tokenRequests)
    (htok : (truthyStr (P.token (q.code.getD "")).access_token &&
      truthyInt (P.token (q.code.getD "")).user_id) = true)
    (hT : (P.token (q.code.getD "")).access_token = some T)
    (hprof : (P.profile T).response = none)
    (P₂ : Provider) (u : UserRec) (s₂ : Store) (td : TokenStorageRec)
    (htd : oldestBy (fun r => r.userId == u.id) s₂.tokenStorage = some td)
    (hprof₂ : (P₂.profile td.accessToken).response = none) :
    callbackResult P q s = some (.errorPage .typeError) ∧
    getVKData P₂ (some u) s₂ = .error .typeError ∧
    JsErr.typeError ≠ JsErr.msg "Unable to parse VK data" := by
  have htrue : truthyStr q.state = true := by
    rw [hstate]
    simp [truthyStr, hSne]
  have e0 : cbStep P q ⟨.start, s⟩ = (⟨.lookup, s⟩, []) := by
    simp [cbStep, hcode, htrue]
  have hget : q.state.getD "" = S := by rw [hstate]; rfl
  have e1 : cbStep P q ⟨.lookup, s⟩ = (⟨.destroy, s⟩, [.storeRead]) := by
    simp [cbStep, hget, hmem]
  have e2 : cbStep P q ⟨.destroy, s⟩ =
      (⟨.exchange, { s with tokenRequests := s.tokenRequests.erase S }⟩,
        [.storeDestroy]) := by
    simp [cbStep, hget]
  have e3 : cbStep P q ⟨.exchange,
      { s with tokenRequests := s.tokenRequests.erase S }⟩ =
      (⟨.profile T, { s with tokenRequests := s.tokenRequests.erase S }⟩,
        [.netToken]) := by
    simp only [cbStep]
    rw [htok, hT]
    simp
  have e4 : cbStep P q ⟨.profile T,
      { s with tokenRequests := s.tokenRequests.erase S }⟩ =
      (⟨.halt (.errorPage .typeError),
        { s with tokenRequests := s.tokenRequests.erase S }⟩, [.netProfile]) := by
    simp only [cbStep, hprof]
  have t1 : cbRun P q 24 ⟨.start, s⟩ =
      ((cbRun P q 23 ⟨.lookup, s⟩).1, [] ++ (cbRun P q 23 ⟨.lookup, s⟩).2) :=
    cbRun_step_cons P q 23 e0
  have t2 : cbRun P q 23 ⟨.lookup, s⟩ =
      ((cbRun P q 22 ⟨.destroy, s⟩).1,
        [Ev.storeRead] ++ (cbRun P q 22 ⟨.destroy, s⟩).2) :=
    cbRun_step_cons P q 22 e1
  have t3 : cbRun P q 22 ⟨.destroy, s⟩ =
      ((cbRun P q 21 ⟨.exchange,
          { s with tokenRequests := s.tokenRequests.erase S }⟩).1,
        [Ev.storeDestroy] ++ (cbRun P q 21 ⟨.exchange,
          { s with tokenRequests := s.tokenRequests.erase S }⟩).2) :=
    cbRun_step_cons P q 21 e2
  have t4 : cbRun P q 21 ⟨.exchange,
      { s with tokenRequests := s.tokenRequests.erase S }⟩ =
      ((cbRun P q 20 ⟨.profile T,
          { s with tokenRequests := s.tokenRequests.erase S }⟩).1,
        [Ev.netToken] ++ (cbRun P q 20 ⟨.profile T,
          { s with tokenRequests := s.tokenRequests.erase S }⟩).2) :=
    cbRun_step_cons P q 20 e3
  have t5 : cbRun P q 20 ⟨.profile T,
      { s with tokenRequests := s.tokenRequests.erase S }⟩ =
      ((cbRun P q 19 ⟨.halt (.errorPage .typeError),
          { s with tokenRequests := s.tokenRequests.erase S }⟩).1,
        [Ev.netProfile] ++ (cbRun P q 19 ⟨.halt (.errorPage .typeError),
          { s with tokenRequests := s.tokenRequests.erase S }⟩).2) :=
    cbRun_step_cons P q 19 e4
  refine ⟨?_, ?_, by decide⟩
  · unfold callbackResult cbExec
    rw [t1, t2, t3, t4, t5, cbRun_halt]
  · simp [getVKData, htd, hprof₂]

/-- Witness for C10 at a concrete input: the profile endpoint answers with
a body that has no `response` array. -/
theorem claim_C10_witness :
    (truthyStr (some "c1") = true ∧
      "S1" ∈ (⟨["S1"], [], [], 0, 0⟩ : Store).tokenRequests ∧
      ((⟨fun _ => ⟨some "t1", some 7⟩, fun _ => ⟨none⟩⟩ :
        Provider).profile "t1").response = none ∧
      oldestBy (fun r => r.userId == (⟨0, "u", "sess"⟩ : UserRec).id)
        (⟨[], [⟨some 7, some "Ana", some "Li", "t1", 0, 1⟩],
          [⟨0, "u", "sess"⟩], 2, 1⟩ : Store).tokenStorage =
        some ⟨some 7, some "Ana", some "Li", "t1", 0, 1⟩) ∧
    (callbackResult ⟨fun _ => ⟨some "t1", some 7⟩, fun _ => ⟨none⟩⟩
        ⟨some "c1", some "S1"⟩ ⟨["S1"], [], [], 0, 0⟩ =
      some (.errorPage .typeError) ∧
    getVKData ⟨fun _ => ⟨some "t1", some 7⟩, fun _ => ⟨none⟩⟩
        (some ⟨0, "u", "sess"⟩)
        ⟨[], [⟨some 7, some "Ana", some "Li", "t1", 0, 1⟩],
          [⟨0, "u", "sess"⟩], 2, 1⟩ = .error .typeError ∧
    JsErr.typeError ≠ JsErr.msg "Unable to parse VK data") :=
  ⟨⟨rfl, by decide, by decide, by decide⟩,
    claim_C10_unguarded_indexing
      ⟨fun _ => ⟨some "t1", some 7⟩, fun _ => ⟨none⟩⟩ ⟨some "c1", some "S1"⟩
      "S1" "t1" ⟨["S1"], [], [], 0, 0⟩ (by decide) rfl (by decide)
      (by decide) (by decide) (by decide) (by decide)
      ⟨fun _ => ⟨some "t1", some 7⟩, fun _ => ⟨none⟩⟩ ⟨0, "u", "sess"⟩
      ⟨[], [⟨some 7, some "Ana", some "Li", "t1", 0, 1⟩],
        [⟨0, "u", "sess"⟩], 2, 1⟩
      ⟨some 7, some "Ana", some "Li", "t1", 0, 1⟩ (by decide) (by decide)⟩

/-! ## C1: the scenario callback and the identifier the link is keyed on

The spec's scenario: `handleCallback({code:"c1", state:"S1"})`, token
endpoint answering `{access_token:"t1", user_id:7}`, profile endpoint
answering `{response:[{uid:7, first_name:"Ana", last_name:"Li"}]}` (the
profile interface in the spec carries `uid`, not `id`).  The callback
validates `userData.uid` (main.js 163) but `upsertVKUser`/`newVKUser` query
and store the link under `vkData.id` (main.js 273 and 322), a field the
validated payload does not have — so the created TokenStorage row carries
`vkId = undefined`, not the validated external id 7. -/

/-- The provider mock of the spec's success scenario. -/
def scenarioProvider : Provider where
  token := fun c => if c = "c1" then ⟨some "t1", some 7⟩ else ⟨none, none⟩
  profile := fun t =>
    if t = "t1" then ⟨some [⟨some 7, some "Ana", some "Li", none⟩]⟩
    else ⟨none⟩

/-- C1 (evaluation at the failing input): the scenario callback succeeds and
returns a session token, creating exactly one user and exactly one
TokenStorage row — but that row's `vkId` is `undefined` (`none`), not the
validated `uid = 7`: the identifier checked at step 4 is not the identifier
the upsert engine keys the link on. -/
theorem claim_C1_link_not_keyed_on_validated_uid :
    callbackResult scenarioProvider ⟨some "c1", some "S1"⟩
      ⟨["S1"], [], [], 0, 0⟩ = some (.session "session-0") ∧
    (cbExec scenarioProvider ⟨some "c1", some "S1"⟩ 24
      ⟨["S1"], [], [], 0, 0⟩).store.tokenStorage.length = 1 ∧
    (cbExec scenarioProvider ⟨some "c1", some "S1"⟩ 24
      ⟨["S1"], [], [], 0, 0⟩).store.users.length = 1 ∧
    (cbExec scenarioProvider ⟨some "c1", some "S1"⟩ 24
      ⟨["S1"], [], [], 0, 0⟩).store.tokenStorage.map TokenStorageRec.vkId =
      [none] ∧
    (cbExec scenarioProvider ⟨some "c1", some "S1"⟩ 24
      ⟨["S1"], [], [], 0, 0⟩).store.tokenStorage.map TokenStorageRec.vkId ≠
      [some 7] := by
  refine ⟨?_, ?_, ?_, ?_, ?_⟩ <;> decide

/-! ## C6: N concurrent upsert calls for the same external id

The interleaving semantics: a configuration is the shared store plus the
states of the in-flight `upsertVKUser` threads; a schedule is a list of
thread indices; `mStep` runs one atomic `tStep` of the chosen thread
against the shared store. -/

/-- A configuration of N concurrent upsert calls over the shared store. -/
structure MConfig where
  store : Store
  threads : List TState
  deriving Repr, DecidableEq

/-- Run one atomic step of thread `i` (no-op for an out-of-range index). -/
def mStep (c : MConfig) (i : Nat) : MConfig :=
  match c.threads.get? i with
  | none => c
  | some t =>
    let p := tStep c.store t
    { store := p.2, threads := c.threads.set i p.1 }

/-- Run a whole schedule of thread steps. -/
def mRun (c : MConfig) (sched : List Nat) : MConfig :=
  sched.foldl mStep c

/-- The store after the signup step (main.js 308-319). -/
def signupStore (s : Store) : Store :=
  { s with
    users := s.users ++ [⟨s.nextId, usernameFor s.nextId, sessionFor s.nextId⟩],
    nextId := s.nextId + 1 }

/-- The store after the TokenStorage-row creation step (main.js 320-329). -/
def mklinkStore (tok : String) (vk : VKProfile) (uid : Nat) (s : Store) : Store :=
  { s with
    tokenStorage := s.tokenStorage ++
      [⟨vk.id, vk.first_name, vk.last_name, tok, uid, s.nextId⟩],
    nextId := s.nextId + 1,
    linkWrites := s.linkWrites + 1 }

theorem tStep_signup (s : Store) (tok : String) (vk : VKProfile) :
    tStep s (.signup tok vk) = (.mklink tok vk s.nextId, signupStore s) := rfl

theorem tStep_mklink (s : Store) (tok : String) (vk : VKProfile) (uid : Nat) :
    tStep s (.mklink tok vk uid) = (.query tok vk, mklinkStore tok vk uid s) := rfl

theorem SWF_signupStore {s : Store} (hwf : SWF s) : SWF (signupStore s) := by
  obtain ⟨h1, h2, h3, h4, h5⟩ := hwf
  refine ⟨?_, ?_, h3, ?_, ?_⟩
  · intro r hr
    have := h1 r hr
    simp only [signupStore]
    omega
  · intro u hu
    rcases List.mem_append.1 hu with h | h
    · have := h2 u h
      simp only [signupStore]
      omega
    · simp only [List.mem_singleton] at h
      subst h
      simp only [signupStore]
      omega
  · refine List.pairwise_append.2 ⟨h4, List.pairwise_singleton _ _, ?_⟩
    intro a ha b hb
    simp only [List.mem_singleton] at hb
    subst hb
    have := h2 a ha
    simp only
    omega
  · intro r hr
    rcases h5 r hr with ⟨u, hu, hid⟩
    exact ⟨u, List.mem_append_left _ hu, hid⟩

theorem SWF_mklinkStore {s : Store} (hwf : SWF s) (tok : String)
    (vk : VKProfile) {uid : Nat} (huid : ∃ u ∈ s.users, u.id = uid) :
    SWF (mklinkStore tok vk uid s) := by
  obtain ⟨h1, h2, h3, h4, h5⟩ := hwf
  refine ⟨?_, ?_, ?_, h4, ?_⟩
  · intro r hr
    rcases List.mem_append.1 hr with h | h
    · have := h1 r h
      simp only [mklinkStore]
      omega
    · simp only [List.mem_singleton] at h
      subst h
      simp only [mklinkStore]
      omega
  · intro u hu
    have := h2 u hu
    simp only [mklinkStore]
    omega
  · refine List.pairwise_append.2 ⟨h3, List.pairwise_singleton _ _, ?_⟩
    intro a ha b hb
    simp only [List.mem_singleton] at hb
    subst hb
    have := h1 a ha
    simp only
    omega
  · intro r hr
    rcases List.mem_append.1 hr with h | h
    · exact h5 r h
    · simp only [List.mem_singleton] at h
      subst h
      exact huid

/-- Appending a freshly created row never changes which row is the oldest
for key `k` when one already exists. -/
theorem canon_mklinkStore_stable {k : Option Int} {s : Store}
    {r : TokenStorageRec} (hwf : SWF s) (h : canon k s = some r)
    (tok : String) (vk : VKProfile) (uid : Nat) :
    canon k (mklinkStore tok vk uid s) = some r := by
  have hmem :=
    (oldestBy_mem (show oldestBy (vkKey k) s.tokenStorage = some r from h)).1
  have hlt : r.createdAt < s.nextId := hwf.1 r hmem
  show oldestBy (vkKey k) (s.tokenStorage ++
    [⟨vk.id, vk.first_name, vk.last_name, tok, uid, s.nextId⟩]) = some r
  cases hp : vkKey k ⟨vk.id, vk.first_name, vk.last_name, tok, uid, s.nextId⟩ with
  | false => rw [oldestBy_append_not hp]; exact h
  | true => exact oldestBy_append_newer h hp hlt

/-- When no row for `k` exists yet, the freshly created row (for `vk.id = k`)
becomes the oldest. -/
theorem canon_mklinkStore_new {k : Option Int} {s : Store}
    (h : canon k s = none) (tok : String) {vk : VKProfile} (hk : vk.id = k)
    (uid : Nat) :
    canon k (mklinkStore tok vk uid s) =
      some ⟨vk.id, vk.first_name, vk.last_name, tok, uid, s.nextId⟩ := by
  show oldestBy (vkKey k) (s.tokenStorage ++
    [⟨vk.id, vk.first_name, vk.last_name, tok, uid, s.nextId⟩]) = _
  exact oldestBy_append_first (oldestBy_eq_none.1 h) (by simp [vkKey, hk])

/-- `saveStore` keeps an oldest row for `k` in place: only its token can
change, never its identity (`createdAt`) or its user pointer. -/
theorem canon_saveStore_stable {k : Option Int} {s : Store}
    {r₀ : TokenStorageRec} (h : canon k s = some r₀) (tok : String)
    (r : TokenStorageRec) :
    ∃ r₂, canon k (saveStore tok r s) = some r₂ ∧
      r₂.createdAt = r₀.createdAt ∧ r₂.userId = r₀.userId := by
  unfold saveStore
  split
  · exact ⟨r₀, h, rfl, rfl⟩
  · refine ⟨tokUpd tok r.createdAt r₀, ?_, tokUpd_createdAt _ _ _,
      tokUpd_userId _ _ _⟩
    show oldestBy (vkKey k) (s.tokenStorage.map (tokUpd tok r.createdAt)) = _
    rw [oldestBy_map (vkKey_tokUpd k tok r.createdAt)
      (tokUpd_createdAt tok r.createdAt) s.tokenStorage]
    unfold canon at h
    rw [h]
    rfl

/-- Invariant of one in-flight upsert thread for external id `k`, relative
to the current store: its profile targets `k`; once it holds a row snapshot,
the store's oldest row for `k` has the same identity and user pointer; once
it holds a user, that user is (and stays) in the store. -/
def TInv (k : Option Int) (s : Store) : TState → Prop
  | .query _ vk => vk.id = k
  | .signup _ vk => vk.id = k
  | .mklink _ vk uid => vk.id = k ∧ ∃ u ∈ s.users, u.id = uid
  | .fetch _ vk r => vk.id = k ∧ ∃ r₂, canon k s = some r₂ ∧
      r₂.createdAt = r.createdAt ∧ r₂.userId = r.userId
  | .save _ vk r u => vk.id = k ∧ u.id = r.userId ∧ u ∈ s.users ∧
      ∃ r₂, canon k s = some r₂ ∧ r₂.createdAt = r.createdAt ∧
        r₂.userId = r.userId
  | .done u => u ∈ s.users ∧ ∃ r₂, canon k s = some r₂ ∧ r₂.userId = u.id
  | .stuck => False

/-- Global invariant: the store is well-formed and every thread satisfies
its invariant (in particular no thread is stuck). -/
def MInv (k : Option Int) (c : MConfig) : Prop :=
  SWF c.store ∧ ∀ t ∈ c.threads, TInv k c.store t

/-- The effect of one atomic step by any invariant-satisfying thread on the
shared store: well-formedness is kept, users are never removed, and the
oldest row for `k` (once it exists) keeps its identity and user pointer. -/
theorem tStep_effect {k : Option Int} {s : Store} {t : TState}
    (hwf : SWF s) (ht : TInv k s t) :
    SWF (tStep s t).2 ∧
    (∀ u ∈ s.users, u ∈ (tStep s t).2.users) ∧
    (∀ r, canon k s = some r → ∃ r₂, canon k (tStep s t).2 = some r₂ ∧
      r₂.createdAt = r.createdAt ∧ r₂.userId = r.userId) := by
  cases t with
  | query tok vk =>
    refine ⟨?_, ?_, ?_⟩ <;>
      simp only [tStep] <;> (try split) <;>
      first
        | exact hwf
        | exact fun u hu => hu
        | exact fun r h => ⟨r, h, rfl, rfl⟩
  | fetch tok vk r =>
    refine ⟨?_, ?_, ?_⟩ <;>
      simp only [tStep] <;> (try split) <;>
      first
        | exact hwf
        | exact fun u hu => hu
        | exact fun r h => ⟨r, h, rfl, rfl⟩
  | save tok vk r u =>
    rw [tStep_save]
    exact ⟨SWF_saveStore hwf tok r,
      fun v hv => by rw [saveStore_users]; exact hv,
      fun r₀ h => canon_saveStore_stable h tok r⟩
  | signup tok vk =>
    rw [tStep_signup]
    exact ⟨SWF_signupStore hwf,
      fun v hv => List.mem_append_left _ hv,
      fun r₀ h => ⟨r₀, h, rfl, rfl⟩⟩
  | mklink tok vk uid =>
    rw [tStep_mklink]
    exact ⟨SWF_mklinkStore hwf tok vk ht.2,
      fun v hv => hv,
      fun r₀ h => ⟨r₀, canon_mklinkStore_stable hwf h tok vk uid, rfl, rfl⟩⟩
  | done u =>
    exact ⟨hwf, fun u hu => hu, fun r h => ⟨r, h, rfl, rfl⟩⟩
  | stuck =>
    exact ⟨hwf, fun u hu => hu, fun r h => ⟨r, h, rfl, rfl⟩⟩

/-- A thread's invariant survives any store evolution that keeps users and
keeps the identity of the oldest row for `k`. -/
theorem TInv_mono {k : Option Int} {s s' : Store}
    (husers : ∀ u ∈ s.users, u ∈ s'.users)
    (hcanon : ∀ r, canon k s = some r → ∃ r₂, canon k s' = some r₂ ∧
      r₂.createdAt = r.createdAt ∧ r₂.userId = r.userId)
    {t : TState} (ht : TInv k s t) : TInv k s' t := by
  cases t with
  | query tok vk => exact ht
  | signup tok vk => exact ht
  | mklink tok vk uid =>
    obtain ⟨hk, u, hu, hid⟩ := ht
    exact ⟨hk, u, husers u hu, hid⟩
  | fetch tok vk r =>
    obtain ⟨hk, r₂, hc, e1, e2⟩ := ht
    obtain ⟨r₃, hc', f1, f2⟩ := hcanon r₂ hc
    exact ⟨hk, r₃, hc', f1.trans e1, f2.trans e2⟩
  | save tok vk r u =>
    obtain ⟨hk, hid, hu, r₂, hc, e1, e2⟩ := ht
    obtain ⟨r₃, hc', f1, f2⟩ := hcanon r₂ hc
    exact ⟨hk, hid, husers u hu, r₃, hc', f1.trans e1, f2.trans e2⟩
  | done u =>
    obtain ⟨hu, r₂, hc, hid⟩ := ht
    obtain ⟨r₃, hc', f1, f2⟩ := hcanon r₂ hc
    exact ⟨husers u hu, r₃, hc', f2.trans hid⟩
  | stuck => exact ht.elim

/-- The stepping thread itself re-establishes its invariant, and a thread
satisfying the invariant never steps to `stuck`. -/
theorem TInv_self_step {k : Option Int} {s : Store} {t : TState}
    (hwf : SWF s) (ht : TInv k s t) :
    TInv k (tStep s t).2 (tStep s t).1 := by
  cases t with
  | query tok vk =>
    have hk : vk.id = k := ht
    rcases hq : oldestBy (fun r => r.vkId == vk.id) s.tokenStorage with _ | r
    · simp only [tStep, hq]
      exact hk
    · simp only [tStep, hq]
      refine ⟨hk, r, ?_, rfl, rfl⟩
      show oldestBy (vkKey k) s.tokenStorage = some r
      rw [← hk]
      exact hq
  | fetch tok vk r =>
    obtain ⟨hk, r₂, hc, e1, e2⟩ := ht
    have hmem :=
      (oldestBy_mem (show oldestBy (vkKey k) s.tokenStorage = some r₂ from hc)).1
    obtain ⟨u₀, hu₀, hid₀⟩ := hwf.2.2.2.2 r₂ hmem
    rcases hf : s.users.find? (fun u => u.id == r.userId) with _ | u
    · exfalso
      have := List.find?_eq_none.1 hf u₀ hu₀
      simp [hid₀, e2] at this
    · simp only [tStep, hf]
      have hid : u.id = r.userId := by
        have := List.find?_some hf
        simpa using this
      exact ⟨hk, hid, List.mem_of_find?_eq_some hf, r₂, hc, e1, e2⟩
  | save tok vk r u =>
    obtain ⟨hk, hid, hu, r₂, hc, e1, e2⟩ := ht
    rw [tStep_save]
    obtain ⟨r₃, hc', f1, f2⟩ := canon_saveStore_stable hc tok r
    refine ⟨?_, r₃, hc', ?_⟩
    · rw [saveStore_users]
      exact hu
    · rw [f2, e2, hid]
  | signup tok vk =>
    rw [tStep_signup]
    exact ⟨ht, ⟨s.nextId, usernameFor s.nextId, sessionFor s.nextId⟩,
      List.mem_append_right _ (List.mem_singleton_self _), rfl⟩
  | mklink tok vk uid =>
    rw [tStep_mklink]
    exact ht.1
  | done u =>
    obtain ⟨hu, r₂, hc, hid⟩ := ht
    exact ⟨hu, r₂, hc, hid⟩
  | stuck => exact ht.elim

/-- One scheduled step preserves the global invariant. -/
theorem MInv_step {k : Option Int} {c : MConfig} (h : MInv k c) (i : Nat) :
    MInv k (mStep c i) := by
  unfold mStep
  rcases hg : c.threads.get? i with _ | t
  · exact h
  · have ht : TInv k c.store t := h.2 t (List.get?_mem hg)
    obtain ⟨hwf', husers, hcanon⟩ := tStep_effect h.1 ht
    refine ⟨hwf', ?_⟩
    intro t' ht'
    rcases List.mem_or_eq_of_mem_set ht' with hmem | rfl
    · exact TInv_mono husers hcanon (h.2 t' hmem)
    · exact TInv_self_step h.1 ht

/-- A whole schedule preserves the global invariant. -/
theorem MInv_run {k : Option Int} :
    ∀ (sched : List Nat) (c : MConfig), MInv k c → MInv k (mRun c sched) := by
  intro sched
  induction sched with
  | nil => intro c h; exact h
  | cons j rest ih =>
    intro c h
    exact ih (mStep c j) (MInv_step h j)

/-- Termination measure of one thread: its remaining step count, which for
a thread about to query depends on whether a row for `k` already exists
(the not-found branch takes three extra steps). -/
def tMeasure (k : Option Int) (s : Store) : TState → Nat
  | .query _ _ => if canon k s = none then 6 else 3
  | .signup _ _ => 5
  | .mklink _ _ _ => 4
  | .fetch _ _ _ => 2
  | .save _ _ _ _ => 1
  | .done _ => 0
  | .stuck => 0

theorem tMeasure_le (k : Option Int) (s : Store) (t : TState) :
    tMeasure k s t ≤ 6 := by
  cases t <;> simp only [tMeasure] <;> (first | (split <;> omega) | omega)

theorem tMeasure_eq_zero_done {k : Option Int} {s : Store} {t : TState}
    (h : tMeasure k s t = 0) (ht : TInv k s t) : ∃ u, t = .done u := by
  cases t with
  | done u => exact ⟨u, rfl⟩
  | stuck => exact ht.elim
  | query tok vk =>
    simp only [tMeasure] at h
    split at h <;> omega
  | signup tok vk => simp [tMeasure] at h
  | mklink tok vk uid => simp [tMeasure] at h
  | fetch tok vk r => simp [tMeasure] at h
  | save tok vk r u => simp [tMeasure] at h

/-- A non-finished thread's own step strictly decreases its measure. -/
theorem tMeasure_self_step {k : Option Int} {s : Store} {t : TState}
    (hwf : SWF s) (ht : TInv k s t) :
    tMeasure k (tStep s t).2 (tStep s t).1 ≤ tMeasure k s t - 1 := by
  cases t with
  | done u => simp [tStep, tMeasure]
  | stuck => exact ht.elim
  | query tok vk =>
    have hk : vk.id = k := ht
    rcases hq : oldestBy (fun r => r.vkId == vk.id) s.tokenStorage with _ | r
    · have hcn : canon k s = none := by
        show oldestBy (vkKey k) s.tokenStorage = none
        rw [← hk]
        exact hq
      simp only [tStep, hq, tMeasure]
      rw [if_pos hcn]
    · have hcs : canon k s = some r := by
        show oldestBy (vkKey k) s.tokenStorage = some r
        rw [← hk]
        exact hq
      simp only [tStep, hq, tMeasure]
      rw [if_neg (by rw [hcs]; exact fun h => Option.noConfusion h)]
  | fetch tok vk r =>
    obtain ⟨hk, r₂, hc, e1, e2⟩ := ht
    have hmem :=
      (oldestBy_mem (show oldestBy (vkKey k) s.tokenStorage = some r₂ from hc)).1
    obtain ⟨u₀, hu₀, hid₀⟩ := hwf.2.2.2.2 r₂ hmem
    rcases hf : s.users.find? (fun u => u.id == r.userId) with _ | u
    · exfalso
      have := List.find?_eq_none.1 hf u₀ hu₀
      simp [hid₀, e2] at this
    · simp only [tStep, hf, tMeasure]
      omega
  | save tok vk r u =>
    rw [tStep_save]
    simp [tMeasure]
  | signup tok vk =>
    rw [tStep_signup]
    simp [tMeasure]
  | mklink tok vk uid =>
    rw [tStep_mklink]
    have hsome : canon k (mklinkStore tok vk uid s) ≠ none := by
      rcases hc : canon k s with _ | r
      · rw [canon_mklinkStore_new hc tok ht.1 uid]
        exact fun h => Option.noConfusion h
      · rw [canon_mklinkStore_stable hwf hc tok vk uid]
        exact fun h => Option.noConfusion h
    simp only [tMeasure]
    rw [if_neg hsome]

/-- Another thread's step never increases this thread's measure. -/
theorem tMeasure_mono {k : Option Int} {s s' : Store} {t : TState}
    (hcanon : ∀ r, canon k s = some r → ∃ r₂, canon k s' = some r₂ ∧
      r₂.createdAt = r.createdAt ∧ r₂.userId = r.userId) :
    tMeasure k s' t ≤ tMeasure k s t := by
  cases t with
  | query tok vk =>
    simp only [tMeasure]
    by_cases hc : canon k s = none
    · rw [if_pos hc]
      split <;> omega
    · obtain ⟨r, hr⟩ := Option.ne_none_iff_exists'.1 hc
      obtain ⟨r₂, hc', -, -⟩ := hcanon r hr
      rw [if_neg (by rw [hc']; exact fun h => Option.noConfusion h)]
      rw [if_neg hc]
  | signup tok vk => exact Nat.le_refl _
  | mklink tok vk uid => exact Nat.le_refl _
  | fetch tok vk r => exact Nat.le_refl _
  | save tok vk r u => exact Nat.le_refl _
  | done u => exact Nat.le_refl _
  | stuck => exact Nat.le_refl _

/-- Measure of thread `i` in a configuration (0 when out of range). -/
def mMeasure (k : Option Int) (c : MConfig) (i : Nat) : Nat :=
  match c.threads.get? i with
  | some t => tMeasure k c.store t
  | none => 0

theorem mMeasure_none {k : Option Int} {c : MConfig} {i : Nat}
    (hg : c.threads.get? i = none) : mMeasure k c i = 0 := by
  unfold mMeasure
  rw [hg]

theorem mMeasure_some (k : Option Int) {c : MConfig} {i : Nat} {t : TState}
    (hg : c.threads.get? i = some t) :
    mMeasure k c i = tMeasure k c.store t := by
  unfold mMeasure
  rw [hg]

theorem mMeasure_le (k : Option Int) (c : MConfig) (i : Nat) :
    mMeasure k c i ≤ 6 := by
  unfold mMeasure
  split
  · exact tMeasure_le _ _ _
  · omega

theorem mMeasure_step_self {k : Option Int} {c : MConfig} (h : MInv k c)
    (i : Nat) : mMeasure k (mStep c i) i ≤ mMeasure k c i - 1 := by
  rcases hg : c.threads.get? i with _ | t
  · have hc : mStep c i = c := by unfold mStep; rw [hg]
    rw [hc, mMeasure_none hg]
  · have hc : mStep c i =
        ⟨(tStep c.store t).2, c.threads.set i (tStep c.store t).1⟩ := by
      unfold mStep
      rw [hg]
    have hset : (c.threads.set i (tStep c.store t).1).get? i =
        some (tStep c.store t).1 := by
      rw [List.get?_set_eq, hg]
      rfl
    rw [hc, mMeasure_some k hset, mMeasure_some k hg]
    exact tMeasure_self_step h.1 (h.2 t (List.get?_mem hg))

theorem mMeasure_step_other {k : Option Int} {c : MConfig} (h : MInv k c)
    {i j : Nat} (hne : i ≠ j) :
    mMeasure k (mStep c i) j ≤ mMeasure k c j := by
  rcases hg : c.threads.get? i with _ | t
  · have hc : mStep c i = c := by unfold mStep; rw [hg]
    rw [hc]
  · have hc : mStep c i =
        ⟨(tStep c.store t).2, c.threads.set i (tStep c.store t).1⟩ := by
      unfold mStep
      rw [hg]
    have hset : (c.threads.set i (tStep c.store t).1).get? j =
        c.threads.get? j := List.get?_set_ne _ _ hne
    rw [hc]
    rcases hgj : c.threads.get? j with _ | t'
    · rw [mMeasure_none (by rw [hset]; exact hgj), mMeasure_none hgj]
    · rw [mMeasure_some k (by rw [hset]; exact hgj), mMeasure_some k hgj]
      exact tMeasure_mono (tStep_effect h.1 (h.2 t (List.get?_mem hg))).2.2

theorem mMeasure_run {k : Option Int} :
    ∀ (sched : List Nat) (c : MConfig) (i : Nat), MInv k c →
    mMeasure k (mRun c sched) i ≤ mMeasure k c i - sched.count i := by
  intro sched
  induction sched with
  | nil =>
    intro c i h
    simp [mRun]
  | cons j rest ih =>
    intro c i h
    have hrun : mRun c (j :: rest) = mRun (mStep c j) rest := rfl
    rw [hrun]
    have hrest := ih (mStep c j) i (MInv_step h j)
    by_cases hij : j = i
    · subst hij
      have hstep := mMeasure_step_self h j
      have hcount : (j :: rest).count j = rest.count j + 1 := by
        simp [List.count_cons]
      omega
    · have hstep := mMeasure_step_other h hij
      have hcount : (j :: rest).count i = rest.count i := by
        simp [List.count_cons, hij]
      omega

theorem mRun_length :
    ∀ (sched : List Nat) (c : MConfig),
    (mRun c sched).threads.length = c.threads.length := by
  intro sched
  induction sched with
  | nil => intro c; rfl
  | cons j rest ih =>
    intro c
    have hrun : mRun c (j :: rest) = mRun (mStep c j) rest := rfl
    rw [hrun, ih]
    rcases hg : c.threads.get? j with _ | t
    · have hc : mStep c j = c := by unfold mStep; rw [hg]
      rw [hc]
    · have hc : mStep c j =
          ⟨(tStep c.store t).2, c.threads.set j (tStep c.store t).1⟩ := by
        unfold mStep
        rw [hg]
      rw [hc]
      exact List.length_set _ _ _

/-- Any thread scheduled at least six times has finished. -/
theorem thread_done {k : Option Int} {c : MConfig} {i : Nat}
    (h : MInv k c) (hi : i < c.threads.length) (sched : List Nat)
    (hcount : 6 ≤ sched.count i) :
    ∃ u, (mRun c sched).threads.get? i = some (.done u) := by
  have hm := mMeasure_run sched c i h
  have hle := mMeasure_le k c i
  have h0 : mMeasure k (mRun c sched) i = 0 := by omega
  have hinv := MInv_run sched c h
  have hilen : i < (mRun c sched).threads.length := by
    rw [mRun_length]
    exact hi
  rcases hg : (mRun c sched).threads.get? i with _ | t
  · exfalso
    have := List.get?_eq_none.1 hg
    omega
  · have ht := hinv.2 t (List.get?_mem hg)
    have hm0 : tMeasure k (mRun c sched).store t = 0 := by
      have he := mMeasure_some k hg
      omega
    obtain ⟨u, rfl⟩ := tMeasure_eq_zero_done hm0 ht
    exact ⟨u, rfl⟩

/-- Recognizes a thread that is a fresh `upsertVKUser` call (at its initial
query) for external id `k`. -/
def isQueryFor (k : Option Int) : TState → Bool
  | .query _ vk => vk.id == k
  | _ => false

theorem UserRec_eq_of_id {users : List UserRec}
    (hnd : users.Pairwise (fun a b => a.id ≠ b.id)) {u v : UserRec}
    (hu : u ∈ users) (hv : v ∈ users) (h : u.id = v.id) : u = v := by
  induction users with
  | nil => cases hu
  | cons a rest ih =>
    rcases List.pairwise_cons.1 hnd with ⟨hne, hrest⟩
    rcases List.mem_cons.1 hu with rfl | hu'
    · rcases List.mem_cons.1 hv with rfl | hv'
      · rfl
      · exact absurd h (hne v hv')
    · rcases List.mem_cons.1 hv with rfl | hv'
      · exact absurd h.symm (hne u hu')
      · exact ih hrest hu' hv'

/-- C6: upsert is convergent under concurrency.  Start any number of
concurrent `upsertVKUser` threads for the same never-seen-before external
id `k` on a well-formed store and run them under any schedule that steps
each thread at least six times (enough for the longest path).  Then every
thread has returned, all threads return the *same* user, and that user is
the one the store's oldest TokenStorage row for `k` points at — any
later-created duplicate Account/row pairs are orphaned and never
surfaced. -/
theorem claim_C6_concurrent_first_logins_converge (k : Option Int) (s : Store)
    (threads : List TState) (sched : List Nat) (hwf : SWF s)
    (hnone : canon k s = none)
    (hthreads : ∀ t ∈ threads, isQueryFor k t = true)
    (hlen : 0 < threads.length)
    (hsched : ∀ i, i < threads.length → 6 ≤ sched.count i) :
    ∃ r u, canon k (mRun ⟨s, threads⟩ sched).store = some r ∧
      u ∈ (mRun ⟨s, threads⟩ sched).store.users ∧ r.userId = u.id ∧
      ∀ t ∈ (mRun ⟨s, threads⟩ sched).threads, t = TState.done u := by
  have hinv0 : MInv k ⟨s, threads⟩ := by
    refine ⟨hwf, ?_⟩
    intro t ht
    have hq := hthreads t ht
    cases t with
    | query tok vk =>
      show vk.id = k
      simpa [isQueryFor] using hq
    | fetch tok vk r => simp [isQueryFor] at hq
    | save tok vk r u => simp [isQueryFor] at hq
    | signup tok vk => simp [isQueryFor] at hq
    | mklink tok vk uid => simp [isQueryFor] at hq
    | done u => simp [isQueryFor] at hq
    | stuck => simp [isQueryFor] at hq
  have hfin := MInv_run sched _ hinv0
  obtain ⟨u₀, hg₀⟩ := thread_done hinv0 hlen sched (hsched 0 hlen)
  have ht₀ := hfin.2 _ (List.get?_mem hg₀)
  obtain ⟨hu₀, r, hc, hid⟩ := ht₀
  refine ⟨r, u₀, hc, hu₀, hid, ?_⟩
  intro t htmem
  obtain ⟨i, hgi⟩ := List.get?_of_mem htmem
  obtain ⟨hlt, -⟩ := List.get?_eq_some.1 hgi
  have hlt' : i < threads.length := by
    have hl := mRun_length sched ⟨s, threads⟩
    rw [hl] at hlt
    exact hlt
  obtain ⟨uᵢ, hgᵢ⟩ := thread_done hinv0 hlt' sched (hsched i hlt')
  have hti : t = TState.done uᵢ := by
    rw [hgi] at hgᵢ
    exact Option.some.inj hgᵢ
  subst hti
  have htI := hfin.2 _ htmem
  obtain ⟨huI, r', hc', hidI⟩ := htI
  have hrr : r' = r := by
    rw [hc] at hc'
    exact (Option.some.inj hc').symm
  have hids : uᵢ.id = u₀.id := by
    calc uᵢ.id = r'.userId := hidI.symm
    _ = r.userId := by rw [hrr]
    _ = u₀.id := hid
  rw [UserRec_eq_of_id hfin.1.2.2.2.1 huI hu₀ hids]

/-- The two racing first-login threads of the C6 witness (same external
id 7, different tokens and profile spellings). -/
def raceThreads : List TState :=
  [.query "a" ⟨some 7, some "Ana", some "Li", some 7⟩,
   .query "b" ⟨some 7, some "Ana", some "Li", some 7⟩]

/-- A fully interleaved schedule: both threads see "not found", both create
an Account and a row, and both re-runs converge on the oldest row. -/
def raceSched : List Nat := [0, 1, 0, 1, 0, 1, 0, 1, 0, 1, 0, 1]

/-- Witness for C6 at a concrete input: two threads racing the first login
of external id 7 under the fully interleaved schedule. -/
theorem claim_C6_witness :
    (SWF ⟨[], [], [], 0, 0⟩ ∧ canon (some 7) ⟨[], [], [], 0, 0⟩ = none ∧
      (∀ t ∈ raceThreads, isQueryFor (some 7) t = true) ∧
      0 < raceThreads.length ∧
      (∀ i, i < raceThreads.length → 6 ≤ raceSched.count i)) ∧
    ∃ r u,
      canon (some 7)
        (mRun ⟨⟨[], [], [], 0, 0⟩, raceThreads⟩ raceSched).store = some r ∧
      u ∈ (mRun ⟨⟨[], [], [], 0, 0⟩, raceThreads⟩ raceSched).store.users ∧
      r.userId = u.id ∧
      ∀ t ∈ (mRun ⟨⟨[], [], [], 0, 0⟩, raceThreads⟩ raceSched).threads,
        t = TState.done u :=
  ⟨⟨by decide, by decide, by decide, by decide, by decide⟩,
    claim_C6_concurrent_first_logins_converge (some 7) _ raceThreads raceSched
      (by decide) (by decide) (by decide) (by decide) (by decide)⟩
